import Mathlib

/-!
Verification of the tic-tac-toe core of `src/frontend/app/index.tsx`:
the outcome evaluator `checkWinner`, the move selector `getAIMove`
(difficulties easy / medium / hard, with the hard tier's `minimax`), and
the statistics updater `updateStats`.

The board is embedded as a function `Fin 9 → Option Mark` (a 9-cell array
whose cells hold `'X'`, `'O'` or `null`). The in-place mutation that the
source's `minimax` performs (`board[i] = 'O'; ...; board[i] = null`) is
modelled functionally by `setCell`; a second, state-threading embedding
`minimaxSt` mirrors the mutate-and-restore discipline literally and is
proved to return its input board unchanged. JavaScript's `undefined`
(returned when `emptyCells` is empty) is modelled by `Option.none`, and
`Math.floor(Math.random() * len)`, which yields an arbitrary index below
`len`, is modelled by an oracle parameter `rnd : Nat` used as `rnd % len`.

The source's recursions terminate because every recursive call fills one
of at most 9 cells; the embedding makes this explicit with a fuel
parameter that every caller instantiates with 9, an upper bound for the
number of empty cells of any board.
-/

set_option maxRecDepth 40000
set_option maxHeartbeats 12000000

inductive Mark : Type
  | X
  | O
deriving DecidableEq

/-- Result of `checkWinner`: `'X'`/`'O'` (a completed line's mark) or `'draw'`;
the JS `null` outcome is `Option.none` around this type. -/
inductive Res : Type
  | win (m : Mark)
  | draw
deriving DecidableEq

abbrev Cell := Option Mark

abbrev Board := Fin 9 → Cell

/-- Functional model of the assignment `board[i] = v`. -/
def setCell (b : Board) (i : Fin 9) (v : Cell) : Board :=
  fun j => if j = i then v else b j

/-- The fixed table of the 8 winning lines, in source order:
rows, then columns, then diagonals. -/
def linesList : List (Fin 9 × Fin 9 × Fin 9) :=
  [(0, 1, 2), (3, 4, 5), (6, 7, 8),
   (0, 3, 6), (1, 4, 7), (2, 5, 8),
   (0, 4, 8), (2, 4, 6)]

/-- The body of `checkWinner`'s loop for a single line `(a, b, c)`: the source
tests `board[a] && board[a] === board[b] && board[a] === board[c]` and
returns `board[a]` on success. -/
def lineTest (b : Board) (l : Fin 9 × Fin 9 × Fin 9) : Option Res :=
  match b l.1 with
  | some m =>
    if b l.2.1 = some m ∧ b l.2.2 = some m then some (Res.win m) else none
  | none => none

/-- The outcome evaluator `checkWinner`: scans the 8 lines in table order and
returns the mark of the first line whose three cells are equal and non-null;
otherwise `'draw'` if the board is full, else `null` (`none`). -/
def checkWinner (b : Board) : Option Res :=
  match linesList.findSome? (lineTest b) with
  | some r => some r
  | none =>
    if (List.finRange 9).all (fun i => b i ≠ none) then some Res.draw else none

/-- Specification-side restatement of the outcome evaluator, following the
spec's words: find the first line (fixed table order) whose three cells are
non-empty and identical and return its mark's win outcome; if there is none,
return Draw when every cell is non-empty and InProgress (`none`) otherwise. -/
def checkWinnerSpec (b : Board) : Option Res :=
  match linesList.find? (fun l =>
    (b l.1).isSome && decide (b l.1 = b l.2.1) && decide (b l.1 = b l.2.2)) with
  | some l => (b l.1).map Res.win
  | none =>
    if (∀ i : Fin 9, b i ≠ none) then some Res.draw else none

inductive Difficulty : Type
  | easy
  | medium
  | hard
deriving DecidableEq

/-- The list `emptyCells` computed at the top of `getAIMove`: the indices of
the `null` cells, in increasing order. -/
def emptyCellsOf (b : Board) : List (Fin 9) :=
  (List.finRange 9).filter (fun i => b i = none)

/-- The hard tier's `minimax(board, depth, isMaximizing)`. Terminal boards
score `10 - depth` (O wins), `depth - 10` (X wins) or `0` (draw); otherwise
the maximizer (mark `'O'`) and minimizer (mark `'X'`) fold over the cells
`0..8`, recursing on each empty cell. `Math.max/Math.min` with the initial
`-Infinity`/`Infinity` accumulators are modelled with the sentinels
`-1000`/`1000`, below/above every reachable score. The `fuel` argument makes
termination structural; every call site passes fuel `≥` the number of empty
cells, so the fuel-exhausted branch (which returns 0) is never reached. -/
def terminalScore (r : Res) (depth : Nat) : Int :=
  match r with
  | Res.win Mark.O => 10 - (depth : Int)
  | Res.win Mark.X => (depth : Int) - 10
  | Res.draw => 0

def minimax (b : Board) (depth : Nat) (isMax : Bool) : Nat → Int
  | 0 =>
    match checkWinner b with
    | some r => terminalScore r depth
    | none => 0
  | fuel + 1 =>
    match checkWinner b with
    | some r => terminalScore r depth
    | none =>
      if isMax then
        (List.finRange 9).foldl (fun best i =>
          if b i = none then
            max (minimax (setCell b i (some Mark.O)) (depth + 1) false fuel) best
          else best) (-1000)
      else
        (List.finRange 9).foldl (fun best i =>
          if b i = none then
            min (minimax (setCell b i (some Mark.X)) (depth + 1) true fuel) best
          else best) 1000

/-- The root loop of the hard tier: fold over `emptyCells`, keeping the first
move whose score strictly improves on the best so far (`score > bestScore`),
starting from `bestScore = -Infinity` (sentinel `-1000`) and
`bestMove = emptyCells[0]`. -/
def hardLoop (b : Board) : List (Fin 9) → Int → Option (Fin 9) → Option (Fin 9)
  | [], _, best => best
  | c :: rest, bestScore, best =>
    let score := minimax (setCell b c (some Mark.O)) 0 false 9
    if bestScore < score then hardLoop b rest score (some c)
    else hardLoop b rest bestScore best

/-- The move selector `getAIMove(board, difficulty)`. `rnd` is the oracle for
`Math.random()`: a random pick from a list `l` is `l[rnd % l.length]`. The
result is `none` exactly when the source would return `undefined` (an
out-of-bounds `emptyCells[...]` access). Easy: random empty cell. Medium and
hard first scan for an immediate winning move for `'O'`, then for a blocking
move against `'X'`; medium then takes the center, else a random free corner,
else falls through to a random empty cell; hard runs the minimax root loop. -/
def getAIMove (rnd : Nat) (b : Board) (d : Difficulty) : Option (Fin 9) :=
  let emptyCells := emptyCellsOf b
  if d = Difficulty.easy then
    emptyCells.get? (rnd % emptyCells.length)
  else
    match emptyCells.find? (fun c =>
        checkWinner (setCell b c (some Mark.O)) = some (Res.win Mark.O)) with
    | some c => some c
    | none =>
      match emptyCells.find? (fun c =>
          checkWinner (setCell b c (some Mark.X)) = some (Res.win Mark.X)) with
      | some c => some c
      | none =>
        if d = Difficulty.medium then
          if b 4 = none then some 4
          else
            let corners := [(0 : Fin 9), 2, 6, 8].filter (fun i => b i = none)
            if corners.length > 0 then corners.get? (rnd % corners.length)
            else emptyCells.get? (rnd % emptyCells.length)
        else if d = Difficulty.hard then
          hardLoop b emptyCells (-1000) (emptyCells.get? 0)
        else
          emptyCells.get? (rnd % emptyCells.length)

inductive GameMode : Type
  | menu
  | pvp
  | ai
deriving DecidableEq

structure GameStats : Type where
  playerWins : Nat
  aiWins : Nat
  draws : Nat
deriving DecidableEq

/-- The `updateStats(winner)` handler: bumps `playerWins` when the winner is
`'X'`, `aiWins` when the winner is `'O'` and the mode is `'ai'`, `draws` on a
draw, and always increments `gameCount`. -/
def updateStats (gameMode : GameMode) (winner : Res) (prev : GameStats)
    (gameCount : Nat) : GameStats × Nat :=
  ({ playerWins := if winner = Res.win Mark.X then prev.playerWins + 1 else prev.playerWins
     aiWins := if winner = Res.win Mark.O ∧ gameMode = GameMode.ai then prev.aiWins + 1 else prev.aiWins
     draws := if winner = Res.draw then prev.draws + 1 else prev.draws },
   gameCount + 1)

/-- State-threading embedding of `minimax`, mirroring the source's in-place
`board[i] = mark; ...; board[i] = null` literally: the board is threaded
through the fold, each step mutating cell `i`, recursing, then restoring the
cell to `null`. Used to prove that the mutations are undone before return. -/
def minimaxSt (b : Board) (depth : Nat) (isMax : Bool) : Nat → Int × Board
  | 0 =>
    match checkWinner b with
    | some r => (terminalScore r depth, b)
    | none => (0, b)
  | fuel + 1 =>
    match checkWinner b with
    | some r => (terminalScore r depth, b)
    | none =>
      if isMax then
          (List.finRange 9).foldl (fun st i =>
            if st.2 i = none then
              let b₁ := setCell st.2 i (some Mark.O)
              let r := minimaxSt b₁ (depth + 1) false fuel
              let b₂ := setCell r.2 i none
              (max r.1 st.1, b₂)
            else st) ((-1000 : Int), b)
        else
          (List.finRange 9).foldl (fun st i =>
            if st.2 i = none then
              let b₁ := setCell st.2 i (some Mark.X)
              let r := minimaxSt b₁ (depth + 1) true fuel
              let b₂ := setCell r.2 i none
              (min r.1 st.1, b₂)
            else st) ((1000 : Int), b)

/-- The empty board every game starts from. -/
def emptyBoard : Board := fun _ => none

/-- Construct a board from a 9-entry list (row-major), for concrete tests. -/
def boardOf (l : List Cell) : Board := fun i => l.getD i.1 none

/-- Board of claim C2's counterexample: `[null,'X','O','X','X',null,'O',null,null]`. -/
def cexC2 : Board := boardOf [none, some Mark.X, some Mark.O, some Mark.X, some Mark.X,
  none, some Mark.O, none, none]

/-- Digit `i` (base 3) of a `Nat`-encoded board: 0 = empty, 1 = `'X'`, 2 = `'O'`.
This fast mirror of the board is used only to evaluate game-tree facts
inside the kernel; it is tied to `Board` by `absB` and the bridge lemmas. -/
def cellN (nb i : Nat) : Nat := nb / 3 ^ i % 3

/-- Place value `v` at an empty digit `i` (callers guarantee `cellN nb i = 0`). -/
def setN (nb i v : Nat) : Nat := nb + v * 3 ^ i

/-- One line check on a `Nat`-encoded board: the common mark code of the line
`(a, b, c)` if all three are equal and non-empty, else 0. -/
def lineN (nb a b c : Nat) : Nat :=
  let d := cellN nb a
  cond (d.beq 0) 0 (cond ((cellN nb b).beq d) (cond ((cellN nb c).beq d) d 0) 0)

/-- Outcome on a `Nat`-encoded board: 0 in-progress, 1 X wins, 2 O wins, 3 draw;
same 8 lines in the same order as `checkWinner`. -/
def checkWinnerN (nb : Nat) : Nat :=
  let r := lineN nb 0 1 2
  cond (r.beq 0)
    (let r := lineN nb 3 4 5
     cond (r.beq 0)
      (let r := lineN nb 6 7 8
       cond (r.beq 0)
        (let r := lineN nb 0 3 6
         cond (r.beq 0)
          (let r := lineN nb 1 4 7
           cond (r.beq 0)
            (let r := lineN nb 2 5 8
             cond (r.beq 0)
              (let r := lineN nb 0 4 8
               cond (r.beq 0)
                (let r := lineN nb 2 4 6
                 cond (r.beq 0)
                  (cond ((cellN nb 0).beq 0) 0
                   (cond ((cellN nb 1).beq 0) 0
                    (cond ((cellN nb 2).beq 0) 0
                     (cond ((cellN nb 3).beq 0) 0
                      (cond ((cellN nb 4).beq 0) 0
                       (cond ((cellN nb 5).beq 0) 0
                        (cond ((cellN nb 6).beq 0) 0
                         (cond ((cellN nb 7).beq 0) 0
                          (cond ((cellN nb 8).beq 0) 0 3)))))))))
                  r)
                r)
              r)
            r)
          r)
        r)
      r)
    r

/-- Exploration order for the fast game search (center, corners, edges);
only the set of cells matters for correctness, the order speeds up the
short-circuiting `any`/`all`. -/
def ordCells : List Nat := [4, 0, 2, 6, 8, 1, 3, 5, 7]

/-- Fast decision procedure for lower bounds on minimax values:
`miniGEN θn fuel nb d p = true` iff the minimax value (offset by 100 into
`Nat`) of the `Nat`-encoded board `nb` at depth `d` with `p` the maximizing
flag is at least `θn - 100`; see the bridge lemma `miniGEN_iff`. Terminal
scores are `110 - d` (O wins), `d + 90` (X wins), `100` (draw). -/
def miniGEN (θn : Nat) : Nat → Nat → Nat → Bool → Bool
  | 0, nb, depth, _ =>
    let r := checkWinnerN nb
    cond (r.beq 2) ((θn + depth).ble 110)
    (cond (r.beq 1) (θn.ble (depth + 90))
    (cond (r.beq 0) false (θn.ble 100)))
  | fuel + 1, nb, depth, isMax =>
    let r := checkWinnerN nb
    cond (r.beq 2) ((θn + depth).ble 110)
    (cond (r.beq 1) (θn.ble (depth + 90))
    (cond (r.beq 0)
      (cond isMax
        (ordCells.any (fun i =>
          cond ((cellN nb i).beq 0)
            (miniGEN θn fuel (setN nb i 2) (depth + 1) false) false))
        (ordCells.all (fun i =>
          cond ((cellN nb i).beq 0)
            (miniGEN θn fuel (setN nb i 1) (depth + 1) true) true)))
      (θn.ble 100)))

/-- Decode a base-3 digit into a cell: 0 empty, 1 `'X'`, 2 `'O'`. -/
def decodeCell : Nat → Cell
  | 0 => none
  | 1 => some Mark.X
  | _ => some Mark.O

/-- Abstraction of a `Nat`-encoded board into a `Board`. -/
def absB (nb : Nat) : Board := fun i => decodeCell (cellN nb i.1)

/-- Decode the `checkWinnerN` code into the `checkWinner` result type. -/
def decodeRes : Nat → Option Res
  | 0 => none
  | 1 => some (Res.win Mark.X)
  | 2 => some (Res.win Mark.O)
  | _ => some Res.draw

/-- Score of a root move `c` in the hard tier: the minimax value of the
position obtained by playing `'O'` at `c`, searched from depth 0 (exactly
the value the source computes as `minimax(testBoard, 0, false)`). -/
def rootScore (b : Board) (c : Fin 9) : Int :=
  minimax (setCell b c (some Mark.O)) 0 false 9

/-- Reference selector for root moves: starting from candidate `m`, scan `L`
and replace the candidate whenever a strictly larger `rootScore` appears.
This mirrors the accumulator of the hard tier's root loop. -/
def pickBest (b : Board) (m : Fin 9) : List (Fin 9) → Fin 9
  | [] => m
  | c :: rest =>
    if rootScore b m < rootScore b c then pickBest b c rest else pickBest b m rest

/-- The cell `c` immediately completes a line for mark `m` on board `b`:
after placing `m` at `c`, some line of the fixed table is entirely `m`. -/
def completesLine (b : Board) (c : Fin 9) (m : Mark) : Prop :=
  ∃ l ∈ linesList, setCell b c (some m) l.1 = some m ∧
    setCell b c (some m) l.2.1 = some m ∧ setCell b c (some m) l.2.2 = some m

instance (b : Board) (c : Fin 9) (m : Mark) : Decidable (completesLine b c m) := by
  unfold completesLine
  infer_instance

def otherMark : Mark → Mark
  | Mark.X => Mark.O
  | Mark.O => Mark.X

/-- Self-play driver for the spec's concrete hard-vs-hard game: while the
board is non-terminal, ask the hard selector for a move and place the
current side's mark there, alternating sides. -/
def hardSelfPlay : Nat → Board → Mark → Board
  | 0, b, _ => b
  | fuel + 1, b, mk =>
    match checkWinner b with
    | some _ => b
    | none =>
      match getAIMove 0 b Difficulty.hard with
      | some m => hardSelfPlay fuel (setCell b m (some mk)) (otherMark mk)
      | none => b

/-- Positions reachable in a game where `'X'` opens and the AI side `'O'`
always plays the hard selector's move; the `Bool` is `true` when `'O'` is to
move. This is the reachability notion of the amended claim C3. -/
inductive ReachHard : Board → Bool → Prop
  | init : ReachHard emptyBoard false
  | xmove (b : Board) (i : Fin 9) : ReachHard b false → checkWinner b = none →
      b i = none → ReachHard (setCell b i (some Mark.X)) true
  | omove (b : Board) (rnd : Nat) (m : Fin 9) : ReachHard b true →
      checkWinner b = none → getAIMove rnd b Difficulty.hard = some m →
      ReachHard (setCell b m (some Mark.O)) false

/-- Positions reachable by an arbitrary legal alternating game from the empty
board (`'X'` opens); the `Mark` is the side to move. This is the literal
"reachable legal position" of claim C3 as stated. -/
inductive ReachAny : Board → Mark → Prop
  | init : ReachAny emptyBoard Mark.X
  | step (b : Board) (i : Fin 9) (mk : Mark) : ReachAny b mk → checkWinner b = none →
      b i = none → ReachAny (setCell b i (some mk)) (otherMark mk)

/-- A full drawn board (no empty cell, no complete line). -/
def fullB : Board := boardOf [some Mark.X, some Mark.O, some Mark.X,
  some Mark.X, some Mark.O, some Mark.O, some Mark.O, some Mark.X, some Mark.X]

/-- Board of claim C9's counterexample: `['X','X','X',null,null,null,'O','O',null]`
(terminal: row 0 is an `'X'` win; `'O'` could complete row 2 at cell 8). -/
def cb9 : Board := boardOf [some Mark.X, some Mark.X, some Mark.X,
  none, none, none, some Mark.O, some Mark.O, none]

/-- Claim C4's first example board `['O','O',null,'X','X',null,null,null,null]`. -/
def mediumWinB : Board := boardOf [some Mark.O, some Mark.O, none,
  some Mark.X, some Mark.X, none, none, none, none]

/-- Claim C4's second example board `['X','X',null,...]`. -/
def mediumBlockB : Board := boardOf [some Mark.X, some Mark.X, none,
  none, none, none, none, none, none]

/-- The fork position `['X','O',null,'X','X',null,'O',null,null]`, reached by
the legal sequence X0, O1, X3, O6, X4; `'O'` is to move and `'X'` has the
double threat 5 (row 1) and 8 (main diagonal). -/
def forkP : Board := boardOf [some Mark.X, some Mark.O, none,
  some Mark.X, some Mark.X, none, some Mark.O, none, none]

/-- Boards of the concrete hard-vs-hard game after the human center opening:
`gameB 0` is the board after `'X'` plays the center, and `gameB k` the board
after `k` further selector moves (`'O','X','O','X','O','X','O','X'`). -/
def gameB : Nat → Board
  | 0 => boardOf [none, none, none, none, some Mark.X, none, none, none, none]
  | 1 => boardOf [some Mark.O, none, none, none, some Mark.X, none, none, none, none]
  | 2 => boardOf [some Mark.O, some Mark.X, none, none, some Mark.X, none, none, none, none]
  | 3 => boardOf [some Mark.O, some Mark.X, none, none, some Mark.X, none, none, some Mark.O, none]
  | 4 => boardOf [some Mark.O, some Mark.X, none, none, some Mark.X, none, some Mark.X, some Mark.O, none]
  | 5 => boardOf [some Mark.O, some Mark.X, some Mark.O, none, some Mark.X, none, some Mark.X, some Mark.O, none]
  | 6 => boardOf [some Mark.O, some Mark.X, some Mark.O, some Mark.X, some Mark.X, none, some Mark.X, some Mark.O, none]
  | 7 => boardOf [some Mark.O, some Mark.X, some Mark.O, some Mark.X, some Mark.X, some Mark.O, some Mark.X, some Mark.O, none]
  | _ => boardOf [some Mark.O, some Mark.X, some Mark.O, some Mark.X, some Mark.X, some Mark.O, some Mark.X, some Mark.O, some Mark.X]

-- ===================================================================
-- Theorems
-- ===================================================================

lemma setCell_self (b : Board) (i : Fin 9) (v : Cell) : setCell b i v i = v := by
  simp [setCell]

lemma setCell_ne (b : Board) {i j : Fin 9} (v : Cell) (h : j ≠ i) :
    setCell b i v j = b j := by
  simp [setCell, h]

lemma setCell_restore {b : Board} {i : Fin 9} (v : Cell) (h : b i = none) :
    setCell (setCell b i v) i none = b := by
  funext j
  by_cases hj : j = i
  · subst hj; simp [setCell, h]
  · simp [setCell, hj]

lemma mem_emptyCellsOf {b : Board} {i : Fin 9} : i ∈ emptyCellsOf b ↔ b i = none := by
  simp [emptyCellsOf, List.mem_filter, List.mem_finRange]

lemma emptyCellsOf_eq_nil {b : Board} : emptyCellsOf b = [] ↔ ∀ i, b i ≠ none := by
  simp [emptyCellsOf, List.filter_eq_nil_iff, List.mem_finRange]

lemma pairwise_emptyCellsOf (b : Board) : (emptyCellsOf b).Pairwise (· < ·) :=
  (List.pairwise_lt_finRange 9).filter _

lemma length_emptyCellsOf_le (b : Board) : (emptyCellsOf b).length ≤ 9 := by
  have h := List.length_filter_le (fun i => decide (b i = none)) (List.finRange 9)
  simpa [emptyCellsOf] using h

lemma nonterminal_empty {b : Board} (h : checkWinner b = none) : emptyCellsOf b ≠ [] := by
  intro hnil
  have hfull : ∀ i, b i ≠ none := emptyCellsOf_eq_nil.mp hnil
  unfold checkWinner at h
  cases hfs : linesList.findSome? (lineTest b) with
  | some r => rw [hfs] at h; exact Option.noConfusion h
  | none =>
    rw [hfs] at h
    have hall : ((List.finRange 9).all fun i => decide (b i ≠ none)) = true := by
      rw [List.all_eq_true]
      intro i _
      simpa using hfull i
    rw [if_pos hall] at h
    exact Option.noConfusion h

lemma nonterminal_has_empty {b : Board} (h : checkWinner b = none) : ∃ i, b i = none := by
  obtain ⟨i, hi⟩ := List.exists_mem_of_ne_nil _ (nonterminal_empty h)
  exact ⟨i, mem_emptyCellsOf.mp hi⟩

lemma one_le_length_emptyCellsOf {b : Board} {i : Fin 9} (h : b i = none) :
    1 ≤ (emptyCellsOf b).length :=
  List.length_pos.mpr (fun hnil => (emptyCellsOf_eq_nil.mp hnil i) h)

lemma findSome?_line_eq (b : Board) (L : List (Fin 9 × Fin 9 × Fin 9)) :
    L.findSome? (lineTest b)
    = (L.find? (fun l =>
        (b l.1).isSome && decide (b l.1 = b l.2.1) && decide (b l.1 = b l.2.2))).bind
        (fun l => (b l.1).map Res.win) := by
  induction L with
  | nil => rfl
  | cons l t ih =>
    rw [List.findSome?_cons, List.find?_cons]
    cases hb : b l.1 with
    | none => simpa [lineTest, hb] using ih
    | some m =>
      by_cases hc : b l.2.1 = some m ∧ b l.2.2 = some m
      · simp [lineTest, hb, hc.1, hc.2]
      · rcases not_and_or.mp hc with hc1 | hc2
        · have hc1' : ¬(some m = b l.2.1) := fun h => hc1 h.symm
          simpa [lineTest, hb, hc, hc1'] using ih
        · have hc2' : ¬(some m = b l.2.2) := fun h => hc2 h.symm
          simpa [lineTest, hb, hc, hc2'] using ih

lemma checkWinner_eq_spec (b : Board) : checkWinner b = checkWinnerSpec b := by
  unfold checkWinner checkWinnerSpec
  rw [findSome?_line_eq]
  cases hf : List.find? (fun l =>
      (b l.1).isSome && decide (b l.1 = b l.2.1) && decide (b l.1 = b l.2.2)) linesList with
  | none =>
    have hiff : (((List.finRange 9).all fun i => decide (b i ≠ none)) = true)
        ↔ (∀ i : Fin 9, b i ≠ none) := by
      simp [List.all_eq_true]
    simp only [Option.bind]
    exact if_congr hiff rfl rfl
  | some l =>
    have hp := List.find?_some hf
    have hs : (b l.1).isSome = true := by
      rcases Bool.and_eq_true_iff.mp hp with ⟨h1, _⟩
      exact (Bool.and_eq_true_iff.mp h1).1
    obtain ⟨m, hm⟩ := Option.isSome_iff_exists.mp hs
    simp [hm]

/-- C1: for every 9-cell board, the Outcome Evaluator `checkWinner` returns
the win outcome of the first line (in the fixed table order: rows, then
columns, then diagonals) whose three cells are non-empty and identical; if no
line is complete and every cell is non-empty it returns Draw; otherwise it
returns InProgress (`none`). (`checkWinnerSpec` is that description verbatim.) -/
theorem C1_checkWinner_first_line : ∀ b : Board, checkWinner b = checkWinnerSpec b :=
  fun b => checkWinner_eq_spec b

/-- C10: `updateStats` increments `gameCount` by exactly 1, increments
`playerWins` exactly when the winner is `'X'`, `draws` exactly when the
outcome is a draw, and `aiWins` only when the winner is `'O'` and the game
mode is `'ai'`; consequently an `'O'` win in two-player mode increments none
of the three stat fields, so their sum can be strictly below `gameCount`. -/
theorem C10_updateStats_fields :
    (∀ (m : GameMode) (w : Res) (s : GameStats) (g : Nat),
      (updateStats m w s g).2 = g + 1 ∧
      (updateStats m w s g).1.playerWins
        = s.playerWins + (if w = Res.win Mark.X then 1 else 0) ∧
      (updateStats m w s g).1.aiWins
        = s.aiWins + (if w = Res.win Mark.O ∧ m = GameMode.ai then 1 else 0) ∧
      (updateStats m w s g).1.draws = s.draws + (if w = Res.draw then 1 else 0)) ∧
    ((updateStats GameMode.pvp (Res.win Mark.O) ⟨0, 0, 0⟩ 0).1.playerWins
      + (updateStats GameMode.pvp (Res.win Mark.O) ⟨0, 0, 0⟩ 0).1.aiWins
      + (updateStats GameMode.pvp (Res.win Mark.O) ⟨0, 0, 0⟩ 0).1.draws
      < (updateStats GameMode.pvp (Res.win Mark.O) ⟨0, 0, 0⟩ 0).2) := by
  constructor
  · intro m w s g
    refine ⟨rfl, ?_, ?_, ?_⟩ <;> · simp only [updateStats]; split <;> simp
  · decide

/-- C7: the hard tier consults no randomness, so its move depends only on the
board: the random oracle argument is irrelevant. -/
theorem C7_hard_deterministic (b : Board) (h : ∃ i, b i = none) (r1 r2 : Nat) :
    getAIMove r1 b Difficulty.hard = getAIMove r2 b Difficulty.hard := rfl

/-- Witness for C7 at a concrete input: the empty board has an empty cell and
two calls with different oracles agree. -/
theorem C7_witness :
    (∃ i : Fin 9, emptyBoard i = none) ∧
    getAIMove 0 emptyBoard Difficulty.hard = getAIMove 37 emptyBoard Difficulty.hard :=
  ⟨⟨0, rfl⟩, C7_hard_deterministic emptyBoard ⟨0, rfl⟩ 0 37⟩

lemma minimaxSt_eq : ∀ (fuel : Nat) (b : Board) (depth : Nat) (isMax : Bool),
    minimaxSt b depth isMax fuel = (minimax b depth isMax fuel, b) := by
  intro fuel
  induction fuel with
  | zero =>
    intro b depth isMax
    unfold minimaxSt minimax
    cases hcw : checkWinner b with
    | some r =>
      cases r with
      | win m => cases m <;> simp
      | draw => simp
    | none => simp
  | succ n ih =>
    intro b depth isMax
    unfold minimaxSt minimax
    cases hcw : checkWinner b with
    | some r =>
      cases r with
      | win m => cases m <;> simp
      | draw => simp
    | none =>
      simp only
      cases isMax
      · simp only [if_neg Bool.false_ne_true, cond_false, Bool.false_eq_true, if_false]
        suffices hgen : ∀ (L : List (Fin 9)) (acc : Int),
            L.foldl (fun st i =>
              if st.2 i = none then
                let b₁ := setCell st.2 i (some Mark.X)
                let r := minimaxSt b₁ (depth + 1) true n
                let b₂ := setCell r.2 i none
                (min r.1 st.1, b₂)
              else st) (acc, b)
            = (L.foldl (fun best i =>
                if b i = none then
                  min (minimax (setCell b i (some Mark.X)) (depth + 1) true n) best
                else best) acc, b) by
          exact hgen _ _
        intro L
        induction L with
        | nil => intro acc; rfl
        | cons c t ihL =>
          intro acc
          simp only [List.foldl_cons]
          by_cases hc : b c = none
          · rw [if_pos hc, if_pos hc, ih (setCell b c (some Mark.X)) (depth + 1) true,
              setCell_restore _ hc]
            exact ihL _
          · rw [if_neg hc, if_neg hc]
            exact ihL _
      · simp only [if_pos rfl]
        suffices hgen : ∀ (L : List (Fin 9)) (acc : Int),
            L.foldl (fun st i =>
              if st.2 i = none then
                let b₁ := setCell st.2 i (some Mark.O)
                let r := minimaxSt b₁ (depth + 1) false n
                let b₂ := setCell r.2 i none
                (max r.1 st.1, b₂)
              else st) (acc, b)
            = (L.foldl (fun best i =>
                if b i = none then
                  max (minimax (setCell b i (some Mark.O)) (depth + 1) false n) best
                else best) acc, b) by
          exact hgen _ _
        intro L
        induction L with
        | nil => intro acc; rfl
        | cons c t ihL =>
          intro acc
          simp only [List.foldl_cons]
          by_cases hc : b c = none
          · rw [if_pos hc, if_pos hc, ih (setCell b c (some Mark.O)) (depth + 1) false,
              setCell_restore _ hc]
            exact ihL _
          · rw [if_neg hc, if_neg hc]
            exact ihL _

/-- C6: the search mutates no observable state: the state-threading embedding
of `minimax` (which performs the source's in-place `board[i] = mark` followed
by the restoring `board[i] = null`) returns the argument board unchanged and
computes the same score as the functional `minimax`; `checkWinner` and
`getAIMove` are pure functions of their arguments in this embedding. -/
theorem C6_no_board_mutation :
    ∀ (b : Board) (depth : Nat) (isMax : Bool) (fuel : Nat),
      (minimaxSt b depth isMax fuel).2 = b ∧
      (minimaxSt b depth isMax fuel).1 = minimax b depth isMax fuel := by
  intro b depth isMax fuel
  rw [minimaxSt_eq fuel b depth isMax]
  exact ⟨rfl, rfl⟩

lemma get?_mod_valid {l : List (Fin 9)} (hne : l ≠ []) (rnd : Nat) :
    ∃ m ∈ l, l.get? (rnd % l.length) = some m := by
  have hlen : 0 < l.length := List.length_pos.mpr hne
  have hlt : rnd % l.length < l.length := Nat.mod_lt _ hlen
  exact ⟨l.get ⟨rnd % l.length, hlt⟩, List.get_mem l _ hlt, List.get?_eq_get hlt⟩

lemma hardLoop_shape (b : Board) :
    ∀ (L : List (Fin 9)) (s : Int) (best : Option (Fin 9)),
      hardLoop b L s best = best ∨ ∃ c ∈ L, hardLoop b L s best = some c := by
  intro L
  induction L with
  | nil => intro s best; exact Or.inl rfl
  | cons c t ih =>
    intro s best
    rw [hardLoop]
    by_cases hlt : s < minimax (setCell b c (some Mark.O)) 0 false 9
    · rw [if_pos hlt]
      rcases ih (minimax (setCell b c (some Mark.O)) 0 false 9) (some c) with h | ⟨c', hc', h⟩
      · exact Or.inr ⟨c, List.mem_cons_self c t, h⟩
      · exact Or.inr ⟨c', List.mem_cons_of_mem c hc', h⟩
    · rw [if_neg hlt]
      rcases ih s best with h | ⟨c', hc', h⟩
      · exact Or.inl h
      · exact Or.inr ⟨c', List.mem_cons_of_mem c hc', h⟩

/-- C8: whatever the difficulty and the outcome of the random choices, the
selector returns a board index at most 8 whose cell is empty, provided at
least one cell is empty. -/
theorem C8_getAIMove_valid (rnd : Nat) (b : Board) (d : Difficulty)
    (h : ∃ i, b i = none) :
    ∃ m : Fin 9, getAIMove rnd b d = some m ∧ m.1 ≤ 8 ∧ b m = none := by
  obtain ⟨i0, hi0⟩ := h
  have hne : emptyCellsOf b ≠ [] :=
    fun hnil => (emptyCellsOf_eq_nil.mp hnil i0) hi0
  have hfin : ∀ m : Fin 9, m.1 ≤ 8 := fun m => Nat.lt_succ_iff.mp m.isLt
  unfold getAIMove
  cases d with
  | easy =>
    simp only [if_pos rfl]
    obtain ⟨m, hm, hget⟩ := get?_mod_valid hne rnd
    exact ⟨m, hget, hfin m, mem_emptyCellsOf.mp hm⟩
  | medium =>
    simp only [reduceIte]
    cases hw : (emptyCellsOf b).find? (fun c =>
        decide (checkWinner (setCell b c (some Mark.O)) = some (Res.win Mark.O))) with
    | some c =>
      exact ⟨c, rfl, hfin c, mem_emptyCellsOf.mp (List.mem_of_find?_eq_some hw)⟩
    | none =>
      cases hbk : (emptyCellsOf b).find? (fun c =>
          decide (checkWinner (setCell b c (some Mark.X)) = some (Res.win Mark.X))) with
      | some c =>
        exact ⟨c, rfl, hfin c, mem_emptyCellsOf.mp (List.mem_of_find?_eq_some hbk)⟩
      | none =>
        by_cases hc4 : b 4 = none
        · exact ⟨4, by simp [hc4], hfin 4, hc4⟩
        · rw [if_neg hc4]
          by_cases hcor : (0 : Nat) < ([(0 : Fin 9), 2, 6, 8].filter (fun i => b i = none)).length
          · rw [if_pos hcor]
            have hcne : [(0 : Fin 9), 2, 6, 8].filter (fun i => b i = none) ≠ [] :=
              fun hnil => by simp [hnil] at hcor
            obtain ⟨m, hm, hget⟩ := get?_mod_valid hcne rnd
            exact ⟨m, hget, hfin m, of_decide_eq_true (List.mem_filter.mp hm).2⟩
          · rw [if_neg hcor]
            obtain ⟨m, hm, hget⟩ := get?_mod_valid hne rnd
            exact ⟨m, hget, hfin m, mem_emptyCellsOf.mp hm⟩
  | hard =>
    simp only [reduceIte]
    cases hw : (emptyCellsOf b).find? (fun c =>
        decide (checkWinner (setCell b c (some Mark.O)) = some (Res.win Mark.O))) with
    | some c =>
      exact ⟨c, rfl, hfin c, mem_emptyCellsOf.mp (List.mem_of_find?_eq_some hw)⟩
    | none =>
      cases hbk : (emptyCellsOf b).find? (fun c =>
          decide (checkWinner (setCell b c (some Mark.X)) = some (Res.win Mark.X))) with
      | some c =>
        exact ⟨c, rfl, hfin c, mem_emptyCellsOf.mp (List.mem_of_find?_eq_some hbk)⟩
      | none =>
        obtain ⟨c0, t, hct⟩ := List.exists_cons_of_ne_nil hne
        have hc0 : (emptyCellsOf b).get? 0 = some c0 := by rw [hct]; rfl
        rcases hardLoop_shape b (emptyCellsOf b) (-1000) ((emptyCellsOf b).get? 0)
          with hsh | ⟨c, hc, hsh⟩
        · refine ⟨c0, ?_, hfin c0, mem_emptyCellsOf.mp (hct ▸ List.mem_cons_self c0 t)⟩
          rw [hsh, hc0]
          simp
        · exact ⟨c, hsh, hfin c, mem_emptyCellsOf.mp hc⟩

/-- Witness for C8 at a concrete input: the empty board. -/
theorem C8_witness :
    (∃ i : Fin 9, emptyBoard i = none) ∧
    ∃ m : Fin 9, getAIMove 5 emptyBoard Difficulty.medium = some m ∧ m.1 ≤ 8 ∧
      emptyBoard m = none :=
  ⟨⟨0, rfl⟩, C8_getAIMove_valid 5 emptyBoard Difficulty.medium ⟨0, rfl⟩⟩

/-- C5 counterexample: on a full board (no empty cell) the selector does not
fail fast with an explicit error: it silently returns the JS `undefined`
(modelled `none`, an out-of-bounds `emptyCells[...]` access), for every
difficulty. No code path of `getAIMove` raises. -/
theorem C5_counterexample :
    emptyCellsOf fullB = [] ∧
    getAIMove 0 fullB Difficulty.easy = none ∧
    getAIMove 0 fullB Difficulty.medium = none ∧
    getAIMove 0 fullB Difficulty.hard = none := by
  decide

/-- C5 amended: when called on a board with no empty cells, `getAIMove`
silently returns the JS `undefined` value (modelled `none`) for every
difficulty and every random outcome, instead of failing fast with an
explicit, well-defined error. -/
theorem C5_full_board_returns_undefined (b : Board) (h : emptyCellsOf b = [])
    (rnd : Nat) (d : Difficulty) : getAIMove rnd b d = none := by
  have hfull : ∀ i, b i ≠ none := emptyCellsOf_eq_nil.mp h
  unfold getAIMove
  rw [h]
  have hcor : [(0 : Fin 9), 2, 6, 8].filter (fun i => b i = none) = [] := by
    rw [List.filter_eq_nil_iff]
    intro a _
    simpa using hfull a
  cases d <;> simp [hcor, hfull 4, hardLoop]

/-- Witness for C5's amended claim at a concrete input. -/
theorem C5_witness :
    emptyCellsOf fullB = [] ∧ getAIMove 3 fullB Difficulty.medium = none :=
  ⟨by decide, C5_full_board_returns_undefined fullB (by decide) 3 Difficulty.medium⟩

lemma checkWinner_ne_none_of_complete {b : Board} {l : Fin 9 × Fin 9 × Fin 9} {m : Mark}
    (hl : l ∈ linesList) (h1 : b l.1 = some m) (h2 : b l.2.1 = some m)
    (h3 : b l.2.2 = some m) : checkWinner b ≠ none := by
  rw [checkWinner_eq_spec]
  unfold checkWinnerSpec
  cases hf : linesList.find? (fun l =>
      (b l.1).isSome && decide (b l.1 = b l.2.1) && decide (b l.1 = b l.2.2)) with
  | none =>
    exfalso
    have := List.find?_eq_none.mp hf l hl
    apply this
    rw [h1, h2, h3]
    simp
  | some l' =>
    have hp := List.find?_some hf
    obtain ⟨m', hm'⟩ := Option.isSome_iff_exists.mp
      (Bool.and_eq_true_iff.mp (Bool.and_eq_true_iff.mp hp).1).1
    simp [hm']

lemma complete_set_cases {b : Board} {c : Fin 9} {m v : Mark} {l : Fin 9 × Fin 9 × Fin 9}
    (h1 : setCell b c (some m) l.1 = some v) (h2 : setCell b c (some m) l.2.1 = some v)
    (h3 : setCell b c (some m) l.2.2 = some v) :
    v = m ∨ (b l.1 = some v ∧ b l.2.1 = some v ∧ b l.2.2 = some v) := by
  by_cases e1 : c = l.1
  · left
    have hcm : setCell b c (some m) l.1 = some m := by rw [← e1, setCell_self]
    rw [hcm] at h1
    exact (Option.some_injective _ h1).symm
  · by_cases e2 : c = l.2.1
    · left
      have hcm : setCell b c (some m) l.2.1 = some m := by rw [← e2, setCell_self]
      rw [hcm] at h2
      exact (Option.some_injective _ h2).symm
    · by_cases e3 : c = l.2.2
      · left
        have hcm : setCell b c (some m) l.2.2 = some m := by rw [← e3, setCell_self]
        rw [hcm] at h3
        exact (Option.some_injective _ h3).symm
      · right
        rw [setCell_ne b (some m) (Ne.symm e1)] at h1
        rw [setCell_ne b (some m) (Ne.symm e2)] at h2
        rw [setCell_ne b (some m) (Ne.symm e3)] at h3
        exact ⟨h1, h2, h3⟩

lemma checkWinner_set_win_iff {b : Board} (hnt : checkWinner b = none) (c : Fin 9)
    (m m' : Mark) :
    checkWinner (setCell b c (some m)) = some (Res.win m') ↔
      m' = m ∧ completesLine b c m := by
  constructor
  · intro h
    rw [checkWinner_eq_spec] at h
    unfold checkWinnerSpec at h
    cases hf : linesList.find? (fun l =>
        (setCell b c (some m) l.1).isSome &&
          decide (setCell b c (some m) l.1 = setCell b c (some m) l.2.1) &&
          decide (setCell b c (some m) l.1 = setCell b c (some m) l.2.2)) with
    | none =>
      rw [hf] at h
      by_cases hfull : ∀ i : Fin 9, ¬ setCell b c (some m) i = none
      · rw [if_pos hfull] at h
        exact absurd h (by simp)
      · rw [if_neg hfull] at h
        exact absurd h (by simp)
    | some l =>
      rw [hf] at h
      have hp := List.find?_some hf
      have hl : l ∈ linesList := List.mem_of_find?_eq_some hf
      obtain ⟨v, hv⟩ := Option.isSome_iff_exists.mp
        (Bool.and_eq_true_iff.mp (Bool.and_eq_true_iff.mp hp).1).1
      have hv2 : setCell b c (some m) l.2.1 = some v := by
        have := of_decide_eq_true (Bool.and_eq_true_iff.mp (Bool.and_eq_true_iff.mp hp).1).2
        rw [hv] at this
        exact this.symm
      have hv3 : setCell b c (some m) l.2.2 = some v := by
        have := of_decide_eq_true (Bool.and_eq_true_iff.mp hp).2
        rw [hv] at this
        exact this.symm
      dsimp only at h
      rw [hv] at h
      have hmv : m' = v := by
        simpa using h.symm
      subst hmv
      rcases complete_set_cases hv hv2 hv3 with hvm | hcomp
      · subst hvm
        exact ⟨rfl, l, hl, hv, hv2, hv3⟩
      · exact absurd hnt (checkWinner_ne_none_of_complete hl hcomp.1 hcomp.2.1 hcomp.2.2)
  · rintro ⟨hm, l, hl, h1, h2, h3⟩
    subst hm
    rw [checkWinner_eq_spec]
    unfold checkWinnerSpec
    cases hf : linesList.find? (fun l =>
        (setCell b c (some m') l.1).isSome &&
          decide (setCell b c (some m') l.1 = setCell b c (some m') l.2.1) &&
          decide (setCell b c (some m') l.1 = setCell b c (some m') l.2.2)) with
    | none =>
      exfalso
      have := List.find?_eq_none.mp hf l hl
      apply this
      rw [h1, h2, h3]
      simp
    | some l₀ =>
      have hp := List.find?_some hf
      have hl₀ : l₀ ∈ linesList := List.mem_of_find?_eq_some hf
      obtain ⟨v, hv⟩ := Option.isSome_iff_exists.mp
        (Bool.and_eq_true_iff.mp (Bool.and_eq_true_iff.mp hp).1).1
      have hv2 : setCell b c (some m') l₀.2.1 = some v := by
        have := of_decide_eq_true (Bool.and_eq_true_iff.mp (Bool.and_eq_true_iff.mp hp).1).2
        rw [hv] at this
        exact this.symm
      have hv3 : setCell b c (some m') l₀.2.2 = some v := by
        have := of_decide_eq_true (Bool.and_eq_true_iff.mp hp).2
        rw [hv] at this
        exact this.symm
      rcases complete_set_cases hv hv2 hv3 with hvm | hcomp
      · subst hvm
        simp [hv]
      · exact absurd hnt (checkWinner_ne_none_of_complete hl₀ hcomp.1 hcomp.2.1 hcomp.2.2)

lemma find?_sorted_first {p : Fin 9 → Bool} {c : Fin 9} :
    ∀ {L : List (Fin 9)}, L.Pairwise (· < ·) → L.find? p = some c →
      p c = true ∧ c ∈ L ∧ ∀ c' ∈ L, c' < c → p c' = false := by
  intro L
  induction L with
  | nil => intro _ h; exact absurd h (by simp)
  | cons a t ih =>
    intro hpw hf
    rw [List.find?_cons] at hf
    cases hpa : p a with
    | true =>
      rw [hpa] at hf
      have hca : c = a := by simpa using hf.symm
      subst hca
      refine ⟨hpa, List.mem_cons_self _ _, ?_⟩
      intro c' hc' hlt
      rcases List.mem_cons.mp hc' with rfl | hc't
      · exact absurd hlt (lt_irrefl _)
      · exact absurd hlt (not_lt_of_gt ((List.pairwise_cons.mp hpw).1 c' hc't))
    | false =>
      rw [hpa] at hf
      obtain ⟨hpc, hmem, hfirst⟩ := ih (List.pairwise_cons.mp hpw).2 hf
      refine ⟨hpc, List.mem_cons_of_mem _ hmem, ?_⟩
      intro c' hc' hlt
      rcases List.mem_cons.mp hc' with rfl | hc't
      · exact hpa
      · exact hfirst c' hc't hlt

/-- C4: on a non-terminal board the medium tier plays an immediate winning
cell for `'O'` whenever one exists, and otherwise blocks an immediate winning
cell of `'X'` whenever the opponent has one. -/
theorem C4_medium_wins_then_blocks (b : Board) (hnt : checkWinner b = none) (rnd : Nat) :
    ((∃ c : Fin 9, b c = none ∧ completesLine b c Mark.O) →
      ∃ c : Fin 9, getAIMove rnd b Difficulty.medium = some c ∧ b c = none ∧
        completesLine b c Mark.O) ∧
    ((¬ ∃ c : Fin 9, b c = none ∧ completesLine b c Mark.O) →
      (∃ c : Fin 9, b c = none ∧ completesLine b c Mark.X) →
      ∃ c : Fin 9, getAIMove rnd b Difficulty.medium = some c ∧ b c = none ∧
        completesLine b c Mark.X) := by
  constructor
  · rintro ⟨c0, hc0e, hc0w⟩
    have hsome : ((emptyCellsOf b).find? (fun c =>
        decide (checkWinner (setCell b c (some Mark.O)) = some (Res.win Mark.O)))).isSome := by
      rw [List.find?_isSome]
      refine ⟨c0, mem_emptyCellsOf.mpr hc0e, ?_⟩
      rw [decide_eq_true_eq]
      exact (checkWinner_set_win_iff hnt c0 Mark.O Mark.O).mpr ⟨rfl, hc0w⟩
    obtain ⟨c, hc⟩ := Option.isSome_iff_exists.mp hsome
    have hpc := List.find?_some hc
    refine ⟨c, ?_, mem_emptyCellsOf.mp (List.mem_of_find?_eq_some hc), ?_⟩
    · simp only [getAIMove]
      rw [hc]
      simp
    · exact ((checkWinner_set_win_iff hnt c Mark.O Mark.O).mp
        (of_decide_eq_true hpc)).2
  · rintro hno ⟨c0, hc0e, hc0b⟩
    have hwnone : (emptyCellsOf b).find? (fun c =>
        decide (checkWinner (setCell b c (some Mark.O)) = some (Res.win Mark.O))) = none := by
      rw [List.find?_eq_none]
      intro x hx hpx
      exact hno ⟨x, mem_emptyCellsOf.mp hx,
        ((checkWinner_set_win_iff hnt x Mark.O Mark.O).mp (of_decide_eq_true hpx)).2⟩
    have hsome : ((emptyCellsOf b).find? (fun c =>
        decide (checkWinner (setCell b c (some Mark.X)) = some (Res.win Mark.X)))).isSome := by
      rw [List.find?_isSome]
      refine ⟨c0, mem_emptyCellsOf.mpr hc0e, ?_⟩
      rw [decide_eq_true_eq]
      exact (checkWinner_set_win_iff hnt c0 Mark.X Mark.X).mpr ⟨rfl, hc0b⟩
    obtain ⟨c, hc⟩ := Option.isSome_iff_exists.mp hsome
    have hpc := List.find?_some hc
    refine ⟨c, ?_, mem_emptyCellsOf.mp (List.mem_of_find?_eq_some hc), ?_⟩
    · simp only [getAIMove]
      rw [hwnone, hc]
      simp
    · exact ((checkWinner_set_win_iff hnt c Mark.X Mark.X).mp
        (of_decide_eq_true hpc)).2

/-- Witness for C4 at the claim's two example boards. -/
theorem C4_witness :
    (checkWinner mediumWinB = none ∧
      ∃ c : Fin 9, getAIMove 0 mediumWinB Difficulty.medium = some c ∧
        mediumWinB c = none ∧ completesLine mediumWinB c Mark.O) ∧
    (checkWinner mediumBlockB = none ∧
      (¬ ∃ c : Fin 9, mediumBlockB c = none ∧ completesLine mediumBlockB c Mark.O) ∧
      ∃ c : Fin 9, getAIMove 0 mediumBlockB Difficulty.medium = some c ∧
        mediumBlockB c = none ∧ completesLine mediumBlockB c Mark.X) :=
  ⟨⟨by decide, (C4_medium_wins_then_blocks mediumWinB (by decide) 0).1
      ⟨2, by decide, by decide⟩⟩,
   ⟨by decide, by decide, (C4_medium_wins_then_blocks mediumBlockB (by decide) 0).2
      (by decide) ⟨2, by decide, by decide⟩⟩⟩

/-- C9 counterexample: on the terminal board `['X','X','X',_,_,_,'O','O',_]`
(row 0 is already an `'X'` win), cell 8 is the unique empty cell completing an
`'O'` line, yet the hard selector returns 3 (its block scan fires on the
pre-existing `'X'` win), not 8 as the claim states. -/
theorem C9_counterexample :
    (emptyCellsOf cb9).filter (fun c => decide (completesLine cb9 c Mark.O)) = [8] ∧
    getAIMove 0 cb9 Difficulty.hard = some 3 ∧ (3 : Fin 9) ≠ 8 := by
  decide

/-- C9 amended: on a NON-TERMINAL board, the hard tier returns the
lowest-index empty cell completing an `'O'` line when one exists, and
otherwise the lowest-index empty cell completing an `'X'` line when one
exists, in both cases straight from the win/block scans that run before the
minimax search. -/
theorem C9_hard_scans_first (b : Board) (hnt : checkWinner b = none) (rnd : Nat) :
    ((∃ c : Fin 9, b c = none ∧ completesLine b c Mark.O) →
      ∃ c : Fin 9, getAIMove rnd b Difficulty.hard = some c ∧ b c = none ∧
        completesLine b c Mark.O ∧
        ∀ c' : Fin 9, c' < c → b c' = none → ¬ completesLine b c' Mark.O) ∧
    ((¬ ∃ c : Fin 9, b c = none ∧ completesLine b c Mark.O) →
      (∃ c : Fin 9, b c = none ∧ completesLine b c Mark.X) →
      ∃ c : Fin 9, getAIMove rnd b Difficulty.hard = some c ∧ b c = none ∧
        completesLine b c Mark.X ∧
        ∀ c' : Fin 9, c' < c → b c' = none → ¬ completesLine b c' Mark.X) := by
  constructor
  · rintro ⟨c0, hc0e, hc0w⟩
    have hsome : ((emptyCellsOf b).find? (fun c =>
        decide (checkWinner (setCell b c (some Mark.O)) = some (Res.win Mark.O)))).isSome := by
      rw [List.find?_isSome]
      refine ⟨c0, mem_emptyCellsOf.mpr hc0e, ?_⟩
      rw [decide_eq_true_eq]
      exact (checkWinner_set_win_iff hnt c0 Mark.O Mark.O).mpr ⟨rfl, hc0w⟩
    obtain ⟨c, hc⟩ := Option.isSome_iff_exists.mp hsome
    obtain ⟨hpc, hcm, hfirst⟩ := find?_sorted_first (pairwise_emptyCellsOf b) hc
    refine ⟨c, ?_, mem_emptyCellsOf.mp hcm, ?_, ?_⟩
    · simp only [getAIMove]
      rw [hc]
      simp
    · exact ((checkWinner_set_win_iff hnt c Mark.O Mark.O).mp (of_decide_eq_true hpc)).2
    · intro c' hlt hc'e hcomp
      have := hfirst c' (mem_emptyCellsOf.mpr hc'e) hlt
      rw [decide_eq_false_iff_not] at this
      exact this ((checkWinner_set_win_iff hnt c' Mark.O Mark.O).mpr ⟨rfl, hcomp⟩)
  · rintro hno ⟨c0, hc0e, hc0b⟩
    have hwnone : (emptyCellsOf b).find? (fun c =>
        decide (checkWinner (setCell b c (some Mark.O)) = some (Res.win Mark.O))) = none := by
      rw [List.find?_eq_none]
      intro x hx hpx
      exact hno ⟨x, mem_emptyCellsOf.mp hx,
        ((checkWinner_set_win_iff hnt x Mark.O Mark.O).mp (of_decide_eq_true hpx)).2⟩
    have hsome : ((emptyCellsOf b).find? (fun c =>
        decide (checkWinner (setCell b c (some Mark.X)) = some (Res.win Mark.X)))).isSome := by
      rw [List.find?_isSome]
      refine ⟨c0, mem_emptyCellsOf.mpr hc0e, ?_⟩
      rw [decide_eq_true_eq]
      exact (checkWinner_set_win_iff hnt c0 Mark.X Mark.X).mpr ⟨rfl, hc0b⟩
    obtain ⟨c, hc⟩ := Option.isSome_iff_exists.mp hsome
    obtain ⟨hpc, hcm, hfirst⟩ := find?_sorted_first (pairwise_emptyCellsOf b) hc
    refine ⟨c, ?_, mem_emptyCellsOf.mp hcm, ?_, ?_⟩
    · simp only [getAIMove]
      rw [hwnone, hc]
      simp
    · exact ((checkWinner_set_win_iff hnt c Mark.X Mark.X).mp (of_decide_eq_true hpc)).2
    · intro c' hlt hc'e hcomp
      have := hfirst c' (mem_emptyCellsOf.mpr hc'e) hlt
      rw [decide_eq_false_iff_not] at this
      exact this ((checkWinner_set_win_iff hnt c' Mark.X Mark.X).mpr ⟨rfl, hcomp⟩)

/-- Witness for C9's amended claim at a concrete input. -/
theorem C9_witness :
    checkWinner mediumWinB = none ∧
    ∃ c : Fin 9, getAIMove 0 mediumWinB Difficulty.hard = some c ∧
      mediumWinB c = none ∧ completesLine mediumWinB c Mark.O ∧
      ∀ c' : Fin 9, c' < c → mediumWinB c' = none → ¬ completesLine mediumWinB c' Mark.O :=
  ⟨by decide, (C9_hard_scans_first mediumWinB (by decide) 0).1 ⟨2, by decide, by decide⟩⟩

lemma foldl_ite_filter {α β : Type} (p : α → Prop) [DecidablePred p] (g : β → α → β) :
    ∀ (l : List α) (init : β),
      l.foldl (fun acc i => if p i then g acc i else acc) init
        = (l.filter (fun i => decide (p i))).foldl g init := by
  intro l
  induction l with
  | nil => intro init; rfl
  | cons a t ih =>
    intro init
    rw [List.foldl_cons, List.filter_cons]
    by_cases hpa : p a
    · rw [if_pos hpa, if_pos (by simpa using hpa), List.foldl_cons]
      exact ih _
    · rw [if_neg hpa, if_neg (by simpa using hpa)]
      exact ih _

lemma le_foldl_max {α : Type} (f : α → Int) :
    ∀ (l : List α) (init θ : Int),
      (θ ≤ l.foldl (fun acc i => max (f i) acc) init ↔ θ ≤ init ∨ ∃ i ∈ l, θ ≤ f i) := by
  intro l
  induction l with
  | nil => intro init θ; simp
  | cons a t ih =>
    intro init θ
    rw [List.foldl_cons, ih]
    simp only [le_max_iff, List.mem_cons]
    constructor
    · rintro (⟨h | h⟩ | ⟨i, hi, h⟩)
      · exact Or.inr ⟨a, Or.inl rfl, h⟩
      · exact Or.inl h
      · exact Or.inr ⟨i, Or.inr hi, h⟩
    · rintro (h | ⟨i, rfl | hi, h⟩)
      · exact Or.inl (Or.inr h)
      · exact Or.inl (Or.inl h)
      · exact Or.inr ⟨i, hi, h⟩

lemma foldl_max_le {α : Type} (f : α → Int) :
    ∀ (l : List α) (init θ : Int),
      (l.foldl (fun acc i => max (f i) acc) init ≤ θ ↔ init ≤ θ ∧ ∀ i ∈ l, f i ≤ θ) := by
  intro l
  induction l with
  | nil => intro init θ; simp
  | cons a t ih =>
    intro init θ
    rw [List.foldl_cons, ih]
    simp only [max_le_iff, List.mem_cons]
    constructor
    · rintro ⟨⟨hfa, hin⟩, hall⟩
      exact ⟨hin, fun i hi => hi.elim (fun he => he ▸ hfa) (hall i)⟩
    · rintro ⟨hin, hall⟩
      exact ⟨⟨hall a (Or.inl rfl), hin⟩, fun i hi => hall i (Or.inr hi)⟩

lemma foldl_min_le {α : Type} (f : α → Int) :
    ∀ (l : List α) (init θ : Int),
      (l.foldl (fun acc i => min (f i) acc) init ≤ θ ↔ init ≤ θ ∨ ∃ i ∈ l, f i ≤ θ) := by
  intro l
  induction l with
  | nil => intro init θ; simp
  | cons a t ih =>
    intro init θ
    rw [List.foldl_cons, ih]
    simp only [min_le_iff, List.mem_cons]
    constructor
    · rintro (⟨h | h⟩ | ⟨i, hi, h⟩)
      · exact Or.inr ⟨a, Or.inl rfl, h⟩
      · exact Or.inl h
      · exact Or.inr ⟨i, Or.inr hi, h⟩
    · rintro (h | ⟨i, rfl | hi, h⟩)
      · exact Or.inl (Or.inr h)
      · exact Or.inl (Or.inl h)
      · exact Or.inr ⟨i, hi, h⟩

lemma le_foldl_min {α : Type} (f : α → Int) :
    ∀ (l : List α) (init θ : Int),
      (θ ≤ l.foldl (fun acc i => min (f i) acc) init ↔ θ ≤ init ∧ ∀ i ∈ l, θ ≤ f i) := by
  intro l
  induction l with
  | nil => intro init θ; simp
  | cons a t ih =>
    intro init θ
    rw [List.foldl_cons, ih]
    simp only [le_min_iff, List.mem_cons]
    constructor
    · rintro ⟨⟨hfa, hin⟩, hall⟩
      exact ⟨hin, fun i hi => hi.elim (fun he => he ▸ hfa) (hall i)⟩
    · rintro ⟨hin, hall⟩
      exact ⟨⟨hall a (Or.inl rfl), hin⟩, fun i hi => hall i (Or.inr hi)⟩

lemma foldl_congr_mem {α β : Type} :
    ∀ (l : List α) (g₁ g₂ : β → α → β) (init : β),
      (∀ acc i, i ∈ l → g₁ acc i = g₂ acc i) → l.foldl g₁ init = l.foldl g₂ init := by
  intro l
  induction l with
  | nil => intro _ _ _ _; rfl
  | cons a t ih =>
    intro g₁ g₂ init h
    rw [List.foldl_cons, List.foldl_cons, h init a (List.mem_cons_self a t)]
    exact ih g₁ g₂ _ (fun acc i hi => h acc i (List.mem_cons_of_mem a hi))

lemma emptyCellsOf_set {b : Board} {i : Fin 9} (hbi : b i = none) (m : Mark) :
    emptyCellsOf (setCell b i (some m)) = (emptyCellsOf b).erase i := by
  have key : ∀ (L : List (Fin 9)), L.Nodup →
      L.filter (fun j => decide (setCell b i (some m) j = none))
        = (L.filter (fun j => decide (b j = none))).erase i := by
    intro L
    induction L with
    | nil => intro _; rfl
    | cons a t ih =>
      intro hnd
      obtain ⟨hna, hndt⟩ := List.nodup_cons.mp hnd
      rw [List.filter_cons, List.filter_cons]
      by_cases ha : a = i
      · subst ha
        rw [if_neg (by simp [setCell_self]), if_pos (by simp [hbi])]
        rw [List.erase_cons_head]
        rw [ih hndt, List.erase_of_not_mem (fun hmem => hna (List.mem_filter.mp hmem).1)]
      · rw [show (decide (setCell b i (some m) a = none)) = decide (b a = none) by
          rw [setCell_ne b _ ha]]
        by_cases hpa : b a = none
        · rw [if_pos (by simpa using hpa), if_pos (by simpa using hpa)]
          rw [List.erase_cons_tail (by simpa using ha), ih hndt]
        · rw [if_neg (by simpa using hpa), if_neg (by simpa using hpa)]
          exact ih hndt
  exact key (List.finRange 9) (List.nodup_finRange 9)

lemma length_emptyCellsOf_set {b : Board} {i : Fin 9} (hbi : b i = none) (m : Mark) :
    (emptyCellsOf (setCell b i (some m))).length = (emptyCellsOf b).length - 1 := by
  rw [emptyCellsOf_set hbi m]
  exact List.length_erase_of_mem (mem_emptyCellsOf.mpr hbi)

lemma minimax_terminal {b : Board} {r : Res} (h : checkWinner b = some r)
    (d : Nat) (p : Bool) : ∀ fuel, minimax b d p fuel = terminalScore r d := by
  intro fuel
  cases fuel <;> simp [minimax, h]

lemma minimax_succ_none {b : Board} {d : Nat} {p : Bool} {fuel : Nat}
    (hnt : checkWinner b = none) :
    minimax b d p (fuel + 1) =
      if p then
        (emptyCellsOf b).foldl
          (fun acc i => max (minimax (setCell b i (some Mark.O)) (d + 1) false fuel) acc) (-1000)
      else
        (emptyCellsOf b).foldl
          (fun acc i => min (minimax (setCell b i (some Mark.X)) (d + 1) true fuel) acc) 1000 := by
  cases p
  · simp only [minimax, hnt, Bool.false_eq_true, if_false]
    rw [show (fun (best : Int) (i : Fin 9) =>
        if b i = none then min (minimax (setCell b i (some Mark.X)) (d + 1) true fuel) best
        else best)
      = (fun (acc : Int) (i : Fin 9) =>
        if b i = none then
          (fun (acc : Int) (i : Fin 9) =>
            min (minimax (setCell b i (some Mark.X)) (d + 1) true fuel) acc) acc i
        else acc) from rfl]
    rw [foldl_ite_filter (fun i => b i = none)
      (fun (acc : Int) (i : Fin 9) =>
        min (minimax (setCell b i (some Mark.X)) (d + 1) true fuel) acc)]
    rfl
  · simp only [minimax, hnt, if_true]
    rw [show (fun (best : Int) (i : Fin 9) =>
        if b i = none then max (minimax (setCell b i (some Mark.O)) (d + 1) false fuel) best
        else best)
      = (fun (acc : Int) (i : Fin 9) =>
        if b i = none then
          (fun (acc : Int) (i : Fin 9) =>
            max (minimax (setCell b i (some Mark.O)) (d + 1) false fuel) acc) acc i
        else acc) from rfl]
    rw [foldl_ite_filter (fun i => b i = none)
      (fun (acc : Int) (i : Fin 9) =>
        max (minimax (setCell b i (some Mark.O)) (d + 1) false fuel) acc)]
    rfl

lemma terminalScore_bounds {r : Res} {d : Nat} (hd : d ≤ 9) :
    (d : Int) - 10 ≤ terminalScore r d ∧ terminalScore r d ≤ 10 - (d : Int) := by
  have : (d : Int) ≤ 9 := by exact_mod_cast hd
  cases r with
  | win m => cases m <;> simp [terminalScore] <;> omega
  | draw => simp [terminalScore]; omega

lemma minimax_bounds : ∀ (fuel : Nat) (b : Board) (d : Nat) (p : Bool),
    (emptyCellsOf b).length ≤ fuel → d + (emptyCellsOf b).length ≤ 9 →
    (d : Int) - 10 ≤ minimax b d p fuel ∧ minimax b d p fuel ≤ 10 - (d : Int) := by
  intro fuel
  induction fuel with
  | zero =>
    intro b d p hf hd
    cases hcw : checkWinner b with
    | some r =>
      rw [minimax_terminal hcw d p 0]
      exact terminalScore_bounds (by omega)
    | none =>
      exfalso
      have := one_le_length_emptyCellsOf (nonterminal_has_empty hcw).choose_spec
      omega
  | succ n ih =>
    intro b d p hf hd
    cases hcw : checkWinner b with
    | some r =>
      rw [minimax_terminal hcw d p (n + 1)]
      exact terminalScore_bounds (by omega)
    | none =>
      have hd9 : (d : Int) ≤ 9 := by
        have := one_le_length_emptyCellsOf (nonterminal_has_empty hcw).choose_spec
        exact_mod_cast by omega
      obtain ⟨j, hj⟩ := nonterminal_has_empty hcw
      have hjm : j ∈ emptyCellsOf b := mem_emptyCellsOf.mpr hj
      have hlen1 : 1 ≤ (emptyCellsOf b).length := one_le_length_emptyCellsOf hj
      have hchild : ∀ (i : Fin 9), i ∈ emptyCellsOf b → ∀ (mk : Mark) (q : Bool),
          ((d : Int) + 1) - 10 ≤ minimax (setCell b i (some mk)) (d + 1) q n ∧
          minimax (setCell b i (some mk)) (d + 1) q n ≤ 10 - ((d : Int) + 1) := by
        intro i hi mk q
        have hie := mem_emptyCellsOf.mp hi
        have hlen := length_emptyCellsOf_set hie mk
        have h1 := ih (setCell b i (some mk)) (d + 1) q (by omega) (by omega)
        constructor
        · have := h1.1; push_cast at this ⊢; omega
        · have := h1.2; push_cast at this ⊢; omega
      rw [minimax_succ_none hcw]
      cases p
      · simp only [Bool.false_eq_true, if_false]
        constructor
        · rw [le_foldl_min]
          refine ⟨by omega, fun i hi => ?_⟩
          have := (hchild i hi Mark.X true).1
          omega
        · rw [foldl_min_le]
          refine Or.inr ⟨j, hjm, ?_⟩
          have := (hchild j hjm Mark.X true).2
          omega
      · simp only [if_true]
        constructor
        · rw [le_foldl_max]
          refine Or.inr ⟨j, hjm, ?_⟩
          have := (hchild j hjm Mark.O false).1
          omega
        · rw [foldl_max_le]
          refine ⟨by omega, fun i hi => ?_⟩
          have := (hchild i hi Mark.O false).2
          omega

lemma minimax_fuel : ∀ (fuel fuel' : Nat) (b : Board) (d : Nat) (p : Bool),
    (emptyCellsOf b).length ≤ fuel → (emptyCellsOf b).length ≤ fuel' →
    minimax b d p fuel = minimax b d p fuel' := by
  intro fuel
  induction fuel with
  | zero =>
    intro fuel' b d p hf hf'
    cases hcw : checkWinner b with
    | some r => rw [minimax_terminal hcw d p 0, minimax_terminal hcw d p fuel']
    | none =>
      exfalso
      have := one_le_length_emptyCellsOf (nonterminal_has_empty hcw).choose_spec
      omega
  | succ n ih =>
    intro fuel' b d p hf hf'
    cases hcw : checkWinner b with
    | some r => rw [minimax_terminal hcw d p (n + 1), minimax_terminal hcw d p fuel']
    | none =>
      have hlen1 : 1 ≤ (emptyCellsOf b).length :=
        one_le_length_emptyCellsOf (nonterminal_has_empty hcw).choose_spec
      cases fuel' with
      | zero => omega
      | succ n' =>
        rw [minimax_succ_none hcw, minimax_succ_none hcw]
        cases p
        · simp only [Bool.false_eq_true, if_false]
          refine foldl_congr_mem _ _ _ _ (fun acc i hi => ?_)
          have hie := mem_emptyCellsOf.mp hi
          have hlen := length_emptyCellsOf_set hie Mark.X
          rw [ih n' (setCell b i (some Mark.X)) (d + 1) true (by omega) (by omega)]
        · simp only [if_true]
          refine foldl_congr_mem _ _ _ _ (fun acc i hi => ?_)
          have hie := mem_emptyCellsOf.mp hi
          have hlen := length_emptyCellsOf_set hie Mark.O
          rw [ih n' (setCell b i (some Mark.O)) (d + 1) false (by omega) (by omega)]

lemma terminalScore_sign {r : Res} {d d' : Nat} (hd : d ≤ 9) (hd' : d' ≤ 9) :
    (0 ≤ terminalScore r d ↔ 0 ≤ terminalScore r d') := by
  have h1 : (d : Int) ≤ 9 := by exact_mod_cast hd
  have h2 : (d' : Int) ≤ 9 := by exact_mod_cast hd'
  cases r with
  | win m => cases m <;> simp [terminalScore] <;> omega
  | draw => simp [terminalScore]

lemma minimax_sign : ∀ (fuel : Nat) (b : Board) (d d' : Nat) (p : Bool),
    (emptyCellsOf b).length ≤ fuel → d + (emptyCellsOf b).length ≤ 9 →
    d' + (emptyCellsOf b).length ≤ 9 →
    (0 ≤ minimax b d p fuel ↔ 0 ≤ minimax b d' p fuel) := by
  intro fuel
  induction fuel with
  | zero =>
    intro b d d' p hf hd hd'
    cases hcw : checkWinner b with
    | some r =>
      rw [minimax_terminal hcw d p 0, minimax_terminal hcw d' p 0]
      exact terminalScore_sign (by omega) (by omega)
    | none =>
      exfalso
      have := one_le_length_emptyCellsOf (nonterminal_has_empty hcw).choose_spec
      omega
  | succ n ih =>
    intro b d d' p hf hd hd'
    cases hcw : checkWinner b with
    | some r =>
      rw [minimax_terminal hcw d p _, minimax_terminal hcw d' p _]
      exact terminalScore_sign (by omega) (by omega)
    | none =>
      have hlen1 : 1 ≤ (emptyCellsOf b).length :=
        one_le_length_emptyCellsOf (nonterminal_has_empty hcw).choose_spec
      rw [minimax_succ_none hcw, minimax_succ_none hcw]
      cases p
      · simp only [Bool.false_eq_true, if_false]
        rw [le_foldl_min, le_foldl_min]
        constructor
        · rintro ⟨-, hall⟩
          refine ⟨by omega, fun i hi => ?_⟩
          have hie := mem_emptyCellsOf.mp hi
          have hlen := length_emptyCellsOf_set hie Mark.X
          exact (ih (setCell b i (some Mark.X)) (d + 1) (d' + 1) true
            (by omega) (by omega) (by omega)).mp (hall i hi)
        · rintro ⟨-, hall⟩
          refine ⟨by omega, fun i hi => ?_⟩
          have hie := mem_emptyCellsOf.mp hi
          have hlen := length_emptyCellsOf_set hie Mark.X
          exact (ih (setCell b i (some Mark.X)) (d + 1) (d' + 1) true
            (by omega) (by omega) (by omega)).mpr (hall i hi)
      · simp only [if_true]
        rw [le_foldl_max, le_foldl_max]
        constructor
        · rintro (h | ⟨i, hi, h⟩)
          · omega
          · refine Or.inr ⟨i, hi, ?_⟩
            have hie := mem_emptyCellsOf.mp hi
            have hlen := length_emptyCellsOf_set hie Mark.O
            exact (ih (setCell b i (some Mark.O)) (d + 1) (d' + 1) false
              (by omega) (by omega) (by omega)).mp h
        · rintro (h | ⟨i, hi, h⟩)
          · omega
          · refine Or.inr ⟨i, hi, ?_⟩
            have hie := mem_emptyCellsOf.mp hi
            have hlen := length_emptyCellsOf_set hie Mark.O
            exact (ih (setCell b i (some Mark.O)) (d + 1) (d' + 1) false
              (by omega) (by omega) (by omega)).mpr h

lemma rootScore_bounds (b : Board) (c : Fin 9) :
    -10 ≤ rootScore b c ∧ rootScore b c ≤ 10 := by
  have h := minimax_bounds 9 (setCell b c (some Mark.O)) 0 false
    (length_emptyCellsOf_le _) (by have := length_emptyCellsOf_le (setCell b c (some Mark.O)); omega)
  unfold rootScore
  constructor
  · have := h.1; omega
  · have := h.2; omega

lemma pickBest_mem (b : Board) : ∀ (L : List (Fin 9)) (m : Fin 9),
    pickBest b m L ∈ m :: L := by
  intro L
  induction L with
  | nil => intro m; simp [pickBest]
  | cons c t ih =>
    intro m
    rw [pickBest]
    by_cases hlt : rootScore b m < rootScore b c
    · rw [if_pos hlt]
      exact List.mem_cons_of_mem _ (ih c)
    · rw [if_neg hlt]
      rcases List.mem_cons.mp (ih m) with h | h
      · rw [h]
        exact List.mem_cons_self _ _
      · exact List.mem_cons_of_mem _ (List.mem_cons_of_mem _ h)

lemma pickBest_le (b : Board) : ∀ (L : List (Fin 9)) (m : Fin 9),
    ∀ c' ∈ m :: L, rootScore b c' ≤ rootScore b (pickBest b m L) := by
  intro L
  induction L with
  | nil =>
    intro m c' hc'
    rcases List.mem_cons.mp hc' with rfl | h
    · simp [pickBest]
    · simp at h
  | cons c t ih =>
    intro m c' hc'
    rw [pickBest]
    by_cases hlt : rootScore b m < rootScore b c
    · rw [if_pos hlt]
      rcases List.mem_cons.mp hc' with h | h
      · rw [h]
        exact le_trans (le_of_lt hlt) (ih c c (List.mem_cons_self _ _))
      · exact ih c c' h
    · rw [if_neg hlt]
      rcases List.mem_cons.mp hc' with h | h
      · rw [h]
        exact ih m m (List.mem_cons_self _ _)
      · rcases List.mem_cons.mp h with h2 | h2
        · rw [h2]
          exact le_trans (le_of_not_lt hlt) (ih m m (List.mem_cons_self _ _))
        · exact ih m c' (List.mem_cons_of_mem _ h2)

lemma pickBest_ne_strict (b : Board) : ∀ (L : List (Fin 9)) (m : Fin 9),
    pickBest b m L ≠ m → rootScore b m < rootScore b (pickBest b m L) := by
  intro L
  induction L with
  | nil => intro m h; exact absurd rfl h
  | cons c t ih =>
    intro m h
    rw [pickBest] at h ⊢
    by_cases hlt : rootScore b m < rootScore b c
    · rw [if_pos hlt] at h ⊢
      exact lt_of_lt_of_le hlt (pickBest_le b t c c (List.mem_cons_self _ _))
    · rw [if_neg hlt] at h ⊢
      exact ih m h

lemma pickBest_first (b : Board) : ∀ (L : List (Fin 9)) (m : Fin 9),
    (m :: L).Pairwise (· < ·) →
    ∀ c' ∈ m :: L, c' < pickBest b m L → rootScore b c' < rootScore b (pickBest b m L) := by
  intro L
  induction L with
  | nil =>
    intro m _ c' hc' hlt
    rcases List.mem_cons.mp hc' with rfl | h
    · rw [pickBest] at hlt
      exact absurd hlt (lt_irrefl _)
    · simp at h
  | cons c t ih =>
    intro m hpw c' hc' hlt
    have hmc : m < c := (List.pairwise_cons.mp hpw).1 c (List.mem_cons_self _ _)
    have hpw' : (m :: t).Pairwise (· < ·) :=
      hpw.sublist (List.cons_sublist_cons.mpr (List.sublist_cons_self c t))
    rw [pickBest] at hlt ⊢
    by_cases hsc : rootScore b m < rootScore b c
    · rw [if_pos hsc] at hlt ⊢
      rcases List.mem_cons.mp hc' with h | h
      · rw [h]
        exact lt_of_lt_of_le hsc (pickBest_le b t c c (List.mem_cons_self _ _))
      · exact ih c (List.pairwise_cons.mp hpw).2 c' h hlt
    · rw [if_neg hsc] at hlt ⊢
      rcases List.mem_cons.mp hc' with h | h
      · rw [h] at hlt ⊢
        exact ih m hpw' m (List.mem_cons_self _ _) hlt
      · rcases List.mem_cons.mp h with h2 | h2
        · rw [h2] at hlt ⊢
          have hne : pickBest b m t ≠ m := by
            intro he
            rw [he] at hlt
            exact absurd (lt_trans hmc hlt) (lt_irrefl _)
          exact lt_of_le_of_lt (le_of_not_lt hsc) (pickBest_ne_strict b t m hne)
        · exact ih m hpw' c' (List.mem_cons_of_mem _ h2) hlt

lemma hardLoop_pickBest (b : Board) : ∀ (L : List (Fin 9)) (m : Fin 9),
    hardLoop b L (rootScore b m) (some m) = some (pickBest b m L) := by
  intro L
  induction L with
  | nil => intro m; rfl
  | cons c t ih =>
    intro m
    rw [hardLoop, pickBest]
    rw [show minimax (setCell b c (some Mark.O)) 0 false 9 = rootScore b c from rfl]
    by_cases hlt : rootScore b m < rootScore b c
    · rw [if_pos hlt, if_pos hlt]
      exact ih c
    · rw [if_neg hlt, if_neg hlt]
      exact ih m

lemma rootScore_of_win {b : Board} {c : Fin 9}
    (h : checkWinner (setCell b c (some Mark.O)) = some (Res.win Mark.O)) :
    rootScore b c = 10 := by
  unfold rootScore
  rw [minimax_terminal h 0 false 9]
  simp [terminalScore]

lemma rootScore_lt_ten {b : Board} (hnt : checkWinner b = none) {c : Fin 9}
    (h : ¬ completesLine b c Mark.O) : rootScore b c < 10 := by
  unfold rootScore
  cases hcw : checkWinner (setCell b c (some Mark.O)) with
  | some r =>
    cases r with
    | win m =>
      exact absurd ((checkWinner_set_win_iff hnt c Mark.O m).mp hcw).2 h
    | draw =>
      rw [minimax_terminal hcw 0 false 9]
      simp [terminalScore]
  | none =>
    obtain ⟨j, hj⟩ := nonterminal_has_empty hcw
    have hjm : j ∈ emptyCellsOf (setCell b c (some Mark.O)) := mem_emptyCellsOf.mpr hj
    have hlen := length_emptyCellsOf_set hj Mark.X
    have hle := length_emptyCellsOf_le (setCell b c (some Mark.O))
    have hchild := minimax_bounds 8
      (setCell (setCell b c (some Mark.O)) j (some Mark.X)) (0 + 1) true (by omega) (by omega)
    have h9 : minimax (setCell b c (some Mark.O)) 0 false 9 ≤ 9 := by
      rw [show (9 : Nat) = 8 + 1 from rfl, minimax_succ_none hcw]
      simp only [Bool.false_eq_true, if_false]
      rw [foldl_min_le]
      refine Or.inr ⟨j, hjm, ?_⟩
      have := hchild.2
      omega
    omega

/-- C2 counterexample: on the non-terminal board
`[null,'X','O','X','X',null,'O',null,null]` every root move scores `-9`
(`'X'` has the double threat 5 and 7), so the claimed first-in-index-order
tie-break would pick cell 0; the code's block scan fires first and returns 5. -/
theorem C2_counterexample :
    checkWinner cexC2 = none ∧
    emptyCellsOf cexC2 = [0, 5, 7, 8] ∧
    rootScore cexC2 0 = -9 ∧ rootScore cexC2 5 = -9 ∧
    rootScore cexC2 7 = -9 ∧ rootScore cexC2 8 = -9 ∧
    getAIMove 0 cexC2 Difficulty.hard = some 5 := by
  refine ⟨by decide, by decide, by decide, by decide, by decide, by decide, by decide⟩

/-- C2 amended: for every non-terminal board with at least one empty cell, if
`'O'` has an immediate winning cell or `'X'` has no immediate winning cell
(i.e. outside the region where the block scan preempts the search), the hard
tier returns the empty cell whose resulting position has the highest minimax
value (`rootScore`, scored `depth - 10` for an `'X'` win, `10 - depth` for an
`'O'` win, 0 for a draw, depth counted from the root of the search); among
equally-scoring moves it returns the first one in increasing index order. -/
theorem C2_hard_plays_first_max (b : Board) (hnt : checkWinner b = none)
    (hyp : (∃ c : Fin 9, b c = none ∧ completesLine b c Mark.O) ∨
           (∀ c : Fin 9, b c = none → ¬ completesLine b c Mark.X)) (rnd : Nat) :
    ∃ c : Fin 9, getAIMove rnd b Difficulty.hard = some c ∧ b c = none ∧
      (∀ c' : Fin 9, b c' = none → rootScore b c' ≤ rootScore b c) ∧
      (∀ c' : Fin 9, c' < c → b c' = none → rootScore b c' < rootScore b c) := by
  cases hw : (emptyCellsOf b).find? (fun c =>
      decide (checkWinner (setCell b c (some Mark.O)) = some (Res.win Mark.O))) with
  | some c =>
    obtain ⟨hpc, hcm, hfirst⟩ := find?_sorted_first (pairwise_emptyCellsOf b) hw
    have hc10 : rootScore b c = 10 := rootScore_of_win (of_decide_eq_true hpc)
    refine ⟨c, ?_, mem_emptyCellsOf.mp hcm, ?_, ?_⟩
    · simp only [getAIMove]
      rw [hw]
      simp
    · intro c' hc'
      rw [hc10]
      exact (rootScore_bounds b c').2
    · intro c' hlt hc'
      rw [hc10]
      apply rootScore_lt_ten hnt
      intro hcomp
      have hf := hfirst c' (mem_emptyCellsOf.mpr hc') hlt
      rw [decide_eq_false_iff_not] at hf
      exact hf ((checkWinner_set_win_iff hnt c' Mark.O Mark.O).mpr ⟨rfl, hcomp⟩)
  | none =>
    have hnoO : ∀ c' : Fin 9, b c' = none → ¬ completesLine b c' Mark.O := by
      intro c' hc' hcomp
      exact (List.find?_eq_none.mp hw c' (mem_emptyCellsOf.mpr hc'))
        (by
          rw [decide_eq_true_eq]
          exact (checkWinner_set_win_iff hnt c' Mark.O Mark.O).mpr ⟨rfl, hcomp⟩)
    have hnoX : ∀ c' : Fin 9, b c' = none → ¬ completesLine b c' Mark.X := by
      rcases hyp with ⟨c0, hc0, hcomp⟩ | h
      · exact absurd hcomp (hnoO c0 hc0)
      · exact h
    have hbk : (emptyCellsOf b).find? (fun c =>
        decide (checkWinner (setCell b c (some Mark.X)) = some (Res.win Mark.X))) = none := by
      rw [List.find?_eq_none]
      intro x hx hpx
      exact hnoX x (mem_emptyCellsOf.mp hx)
        ((checkWinner_set_win_iff hnt x Mark.X Mark.X).mp (of_decide_eq_true hpx)).2
    obtain ⟨c0, t, hct⟩ := List.exists_cons_of_ne_nil (nonterminal_empty hnt)
    have hres : getAIMove rnd b Difficulty.hard = some (pickBest b c0 t) := by
      have hswap : getAIMove rnd b Difficulty.hard
          = hardLoop b (emptyCellsOf b) (-1000) ((emptyCellsOf b).get? 0) := by
        simp only [getAIMove]
        rw [hw, hbk]
        simp
      rw [hswap, hct]
      rw [show ((c0 :: t).get? 0) = some c0 from rfl]
      rw [hardLoop]
      rw [show minimax (setCell b c0 (some Mark.O)) 0 false 9 = rootScore b c0 from rfl]
      rw [if_pos (by have := (rootScore_bounds b c0).1; omega)]
      exact hardLoop_pickBest b t c0
    have hmemc : pickBest b c0 t ∈ emptyCellsOf b := by
      rw [hct]
      exact pickBest_mem b t c0
    have hpw : (c0 :: t).Pairwise (· < ·) := by
      rw [← hct]
      exact pairwise_emptyCellsOf b
    refine ⟨pickBest b c0 t, hres, mem_emptyCellsOf.mp hmemc, ?_, ?_⟩
    · intro c' hc'
      have hcm : c' ∈ c0 :: t := by
        rw [← hct]
        exact mem_emptyCellsOf.mpr hc'
      exact pickBest_le b t c0 c' hcm
    · intro c' hlt hc'
      have hcm : c' ∈ c0 :: t := by
        rw [← hct]
        exact mem_emptyCellsOf.mpr hc'
      exact pickBest_first b t c0 hpw c' hcm hlt

/-- Witness for C2's amended claim at a concrete input: the board
`['O','X',null,null,'X',null,null,'O',null]` (`gameB 3`), where neither side
has an immediate winning cell. -/
theorem C2_witness :
    checkWinner (gameB 3) = none ∧
    ∃ c : Fin 9, getAIMove 0 (gameB 3) Difficulty.hard = some c ∧ gameB 3 c = none ∧
      (∀ c' : Fin 9, gameB 3 c' = none → rootScore (gameB 3) c' ≤ rootScore (gameB 3) c) ∧
      (∀ c' : Fin 9, c' < c → gameB 3 c' = none →
        rootScore (gameB 3) c' < rootScore (gameB 3) c) :=
  ⟨by decide, C2_hard_plays_first_max (gameB 3) (by decide) (Or.inr (by decide)) 0⟩

lemma pow3_pos (i : Nat) : 0 < 3 ^ i := Nat.pow_pos (by norm_num)

lemma cellN_lt_3 (nb i : Nat) : cellN nb i < 3 := Nat.mod_lt _ (by norm_num)

lemma cellN_setN_self {nb i v : Nat} (h : cellN nb i = 0) (hv : v < 3) :
    cellN (setN nb i v) i = v := by
  unfold cellN setN at *
  rw [Nat.add_mul_div_right _ _ (pow3_pos i)]
  omega

lemma cellN_setN_lt {nb i v j : Nat} (hj : j < i) :
    cellN (setN nb i v) j = cellN nb j := by
  unfold cellN setN
  have hpow : (3 : Nat) ^ i = 3 ^ (i - j) * 3 ^ j := by
    rw [← pow_add]
    congr 1
    omega
  rw [hpow, ← Nat.mul_assoc, Nat.add_mul_div_right _ _ (pow3_pos j)]
  obtain ⟨k, hk⟩ := dvd_pow_self 3 (n := i - j) (by omega)
  rw [hk]
  have hvk : v * (3 * k) = 3 * (v * k) := by ring
  rw [hvk]
  omega

lemma cellN_setN_gt {nb i v j : Nat} (h : cellN nb i = 0) (hv : v < 3) (hj : i < j) :
    cellN (setN nb i v) j = cellN nb j := by
  unfold cellN setN at *
  have key : (nb + v * 3 ^ i) / (3 * 3 ^ i) = nb / (3 * 3 ^ i) := by
    have hrP : nb % (3 ^ i * 3) / 3 ^ i = nb / 3 ^ i % 3 :=
      Nat.mod_mul_right_div_self nb (3 ^ i) 3
    rw [show (3 : Nat) ^ i * 3 = 3 * 3 ^ i by ring] at hrP
    have hrlt : nb % (3 * 3 ^ i) < 3 ^ i := by
      rw [← Nat.div_eq_zero_iff (pow3_pos i), hrP, h]
    have hvP : v * 3 ^ i ≤ 2 * 3 ^ i := Nat.mul_le_mul_right _ (by omega)
    have hdm := Nat.div_add_mod nb (3 * 3 ^ i)
    have hsplit : nb + v * 3 ^ i
        = 3 * 3 ^ i * (nb / (3 * 3 ^ i)) + (nb % (3 * 3 ^ i) + v * 3 ^ i) := by
      omega
    rw [hsplit, Nat.mul_add_div (by positivity)]
    have hz : (nb % (3 * 3 ^ i) + v * 3 ^ i) / (3 * 3 ^ i) = 0 := by
      rw [Nat.div_eq_zero_iff (by positivity)]
      omega
    rw [hz]
    omega
  have hpow : (3 : Nat) ^ j = 3 * 3 ^ i * 3 ^ (j - (i + 1)) := by
    rw [show (3 : Nat) * 3 ^ i = 3 ^ (i + 1) by rw [pow_succ]; ring, ← pow_add]
    congr 1
    omega
  rw [hpow, ← Nat.div_div_eq_div_mul (nb + v * 3 ^ i) (3 * 3 ^ i) (3 ^ (j - (i + 1))),
    ← Nat.div_div_eq_div_mul nb (3 * 3 ^ i) (3 ^ (j - (i + 1))), key]

lemma cellN_setN_ne {nb i v j : Nat} (h : cellN nb i = 0) (hv : v < 3) (hj : j ≠ i) :
    cellN (setN nb i v) j = cellN nb j := by
  rcases Nat.lt_or_ge j i with hlt | hge
  · exact cellN_setN_lt hlt
  · exact cellN_setN_gt h hv (by omega)

lemma decodeCell_eq_none {x : Nat} : decodeCell x = none ↔ x = 0 := by
  rcases x with _ | _ | x <;> simp [decodeCell]

lemma absB_eq_none {nb : Nat} {i : Fin 9} : absB nb i = none ↔ cellN nb i.1 = 0 := by
  unfold absB
  exact decodeCell_eq_none

lemma absB_setN {nb i : Nat} (hi : i < 9) (h : cellN nb i = 0) {v : Nat}
    (hv : v = 1 ∨ v = 2) :
    absB (setN nb i v) = setCell (absB nb) ⟨i, hi⟩ (decodeCell v) := by
  funext j
  unfold absB setCell
  by_cases hj : j = (⟨i, hi⟩ : Fin 9)
  · rw [if_pos hj, hj]
    rw [cellN_setN_self h (by omega)]
  · rw [if_neg hj]
    rw [cellN_setN_ne h (by omega) (fun he => hj (Fin.ext he))]

lemma line_bridge (nb : Nat) (a b c : Fin 9) (an bn cn : Nat)
    (ha : a.1 = an) (hb : b.1 = bn) (hc : c.1 = cn) :
    lineTest (absB nb) (a, b, c) = decodeRes (lineN nb an bn cn) := by
  subst ha hb hc
  unfold lineTest absB lineN
  dsimp only
  have h1 := cellN_lt_3 nb a.1
  have h2 := cellN_lt_3 nb b.1
  have h3 := cellN_lt_3 nb c.1
  set d1 := cellN nb a.1 with hd1
  set d2 := cellN nb b.1 with hd2
  set d3 := cellN nb c.1 with hd3
  interval_cases d1 <;> interval_cases d2 <;> interval_cases d3 <;> rfl

lemma lineN_cases (nb a b c : Nat) :
    lineN nb a b c = 0 ∨ lineN nb a b c = 1 ∨ lineN nb a b c = 2 := by
  unfold lineN
  have h := cellN_lt_3 nb a
  dsimp only
  cases hb0 : (cellN nb a).beq 0 with
  | true => simp
  | false =>
    have hne : cellN nb a ≠ 0 := Nat.ne_of_beq_eq_false hb0
    cases hb2 : (cellN nb b).beq (cellN nb a) <;>
      cases hb3 : (cellN nb c).beq (cellN nb a) <;>
        simp [hb2, hb3] <;> omega

lemma nat_beq_zero_false {a : Nat} (h : ¬ a = 0) : a.beq 0 = false := by
  cases a with
  | zero => exact absurd rfl h
  | succ n => rfl

lemma finRange_nine : List.finRange 9 = [0, 1, 2, 3, 4, 5, 6, 7, 8] := by decide

lemma checkWinnerN_bridge (nb : Nat) :
    checkWinner (absB nb) = decodeRes (checkWinnerN nb) := by
  unfold checkWinner checkWinnerN
  simp only [linesList, List.findSome?_cons, List.findSome?_nil]
  rw [line_bridge nb 0 1 2 0 1 2 rfl rfl rfl, line_bridge nb 3 4 5 3 4 5 rfl rfl rfl,
    line_bridge nb 6 7 8 6 7 8 rfl rfl rfl, line_bridge nb 0 3 6 0 3 6 rfl rfl rfl,
    line_bridge nb 1 4 7 1 4 7 rfl rfl rfl, line_bridge nb 2 5 8 2 5 8 rfl rfl rfl,
    line_bridge nb 0 4 8 0 4 8 rfl rfl rfl, line_bridge nb 2 4 6 2 4 6 rfl rfl rfl]
  rcases lineN_cases nb 0 1 2 with h1 | h1 | h1 <;> rw [h1]
  rotate_left
  · rfl
  · rfl
  rcases lineN_cases nb 3 4 5 with h2 | h2 | h2 <;> rw [h2]
  rotate_left
  · rfl
  · rfl
  rcases lineN_cases nb 6 7 8 with h3 | h3 | h3 <;> rw [h3]
  rotate_left
  · rfl
  · rfl
  rcases lineN_cases nb 0 3 6 with h4 | h4 | h4 <;> rw [h4]
  rotate_left
  · rfl
  · rfl
  rcases lineN_cases nb 1 4 7 with h5 | h5 | h5 <;> rw [h5]
  rotate_left
  · rfl
  · rfl
  rcases lineN_cases nb 2 5 8 with h6 | h6 | h6 <;> rw [h6]
  rotate_left
  · rfl
  · rfl
  rcases lineN_cases nb 0 4 8 with h7 | h7 | h7 <;> rw [h7]
  rotate_left
  · rfl
  · rfl
  rcases lineN_cases nb 2 4 6 with h8 | h8 | h8 <;> rw [h8]
  rotate_left
  · rfl
  · rfl
  simp only [finRange_nine, List.all_cons, List.all_nil]
  have ha0 : (absB nb 0 = none) ↔ cellN nb 0 = 0 := absB_eq_none
  have ha1 : (absB nb 1 = none) ↔ cellN nb 1 = 0 := absB_eq_none
  have ha2 : (absB nb 2 = none) ↔ cellN nb 2 = 0 := absB_eq_none
  have ha3 : (absB nb 3 = none) ↔ cellN nb 3 = 0 := absB_eq_none
  have ha4 : (absB nb 4 = none) ↔ cellN nb 4 = 0 := absB_eq_none
  have ha5 : (absB nb 5 = none) ↔ cellN nb 5 = 0 := absB_eq_none
  have ha6 : (absB nb 6 = none) ↔ cellN nb 6 = 0 := absB_eq_none
  have ha7 : (absB nb 7 = none) ↔ cellN nb 7 = 0 := absB_eq_none
  have ha8 : (absB nb 8 = none) ↔ cellN nb 8 = 0 := absB_eq_none
  by_cases hc0 : cellN nb 0 = 0
  · simp [ha0, hc0, decodeRes]
  by_cases hc1 : cellN nb 1 = 0
  · simp [ha0, ha1, hc0, hc1, decodeRes]
  by_cases hc2 : cellN nb 2 = 0
  · simp [ha0, ha1, ha2, hc0, hc1, hc2, decodeRes]
  by_cases hc3 : cellN nb 3 = 0
  · simp [ha0, ha1, ha2, ha3, hc0, hc1, hc2, hc3, decodeRes]
  by_cases hc4 : cellN nb 4 = 0
  · simp [ha0, ha1, ha2, ha3, ha4, hc0, hc1, hc2, hc3, hc4, decodeRes]
  by_cases hc5 : cellN nb 5 = 0
  · simp [ha0, ha1, ha2, ha3, ha4, ha5, hc0, hc1, hc2, hc3, hc4, hc5, decodeRes]
  by_cases hc6 : cellN nb 6 = 0
  · simp [ha0, ha1, ha2, ha3, ha4, ha5, ha6, hc0, hc1, hc2, hc3, hc4, hc5, hc6, decodeRes]
  by_cases hc7 : cellN nb 7 = 0
  · simp [ha0, ha1, ha2, ha3, ha4, ha5, ha6, ha7, hc0, hc1, hc2, hc3, hc4, hc5, hc6, hc7,
      decodeRes]
  by_cases hc8 : cellN nb 8 = 0
  · simp [ha0, ha1, ha2, ha3, ha4, ha5, ha6, ha7, ha8, hc0, hc1, hc2, hc3, hc4, hc5, hc6,
      hc7, hc8, decodeRes]
  have hb0 : (cellN nb 0).beq 0 = false := nat_beq_zero_false hc0
  have hb1 : (cellN nb 1).beq 0 = false := nat_beq_zero_false hc1
  have hb2 : (cellN nb 2).beq 0 = false := nat_beq_zero_false hc2
  have hb3 : (cellN nb 3).beq 0 = false := nat_beq_zero_false hc3
  have hb4 : (cellN nb 4).beq 0 = false := nat_beq_zero_false hc4
  have hb5 : (cellN nb 5).beq 0 = false := nat_beq_zero_false hc5
  have hb6 : (cellN nb 6).beq 0 = false := nat_beq_zero_false hc6
  have hb7 : (cellN nb 7).beq 0 = false := nat_beq_zero_false hc7
  have hb8 : (cellN nb 8).beq 0 = false := nat_beq_zero_false hc8
  simp [ha0, ha1, ha2, ha3, ha4, ha5, ha6, ha7, ha8, hc0, hc1, hc2, hc3, hc4, hc5, hc6,
    hc7, hc8, hb0, hb1, hb2, hb3, hb4, hb5, hb6, hb7, hb8, decodeRes]

lemma nat_beq_false {a b : Nat} (h : ¬ a = b) : a.beq b = false := by
  cases hab : a.beq b with
  | false => rfl
  | true => exact absurd (Nat.eq_of_beq_eq_true hab) h

lemma decodeRes_eq_none {x : Nat} : decodeRes x = none ↔ x = 0 := by
  rcases x with _ | _ | _ | x <;> simp [decodeRes]

lemma decodeRes_eq_winX {x : Nat} : decodeRes x = some (Res.win Mark.X) ↔ x = 1 := by
  rcases x with _ | _ | _ | x <;> simp [decodeRes]

lemma decodeRes_eq_winO {x : Nat} : decodeRes x = some (Res.win Mark.O) ↔ x = 2 := by
  rcases x with _ | _ | _ | x <;> simp [decodeRes]

lemma mem_ordCells {i : Nat} : i ∈ ordCells ↔ i < 9 := by
  constructor
  · intro h
    simp [ordCells] at h
    omega
  · intro h
    interval_cases i <;> simp [ordCells]

lemma decodeRes_eq_draw {x : Nat} : decodeRes x = some Res.draw ↔ 3 ≤ x := by
  rcases x with _ | _ | _ | x <;> simp [decodeRes]

lemma miniGEN_winO {θn fuel nb d : Nat} {p : Bool} (h : checkWinnerN nb = 2) :
    miniGEN θn fuel nb d p = (θn + d).ble 110 := by
  cases fuel <;> (simp only [miniGEN]; rw [h]; rfl)

lemma miniGEN_winX {θn fuel nb d : Nat} {p : Bool} (h : checkWinnerN nb = 1) :
    miniGEN θn fuel nb d p = θn.ble (d + 90) := by
  cases fuel <;> (simp only [miniGEN]; rw [h]; rfl)

lemma miniGEN_draw {θn fuel nb d : Nat} {p : Bool} (h : 3 ≤ checkWinnerN nb) :
    miniGEN θn fuel nb d p = θn.ble 100 := by
  have hb2 : (checkWinnerN nb).beq 2 = false := nat_beq_false (by omega)
  have hb1 : (checkWinnerN nb).beq 1 = false := nat_beq_false (by omega)
  have hb0 : (checkWinnerN nb).beq 0 = false := nat_beq_false (by omega)
  cases fuel <;> (simp only [miniGEN]; rw [hb2, hb1, hb0]; rfl)

lemma miniGEN_none_succ {θn fuel nb d : Nat} {p : Bool} (h : checkWinnerN nb = 0) :
    miniGEN θn (fuel + 1) nb d p =
      cond p
        (ordCells.any (fun i =>
          cond ((cellN nb i).beq 0)
            (miniGEN θn fuel (setN nb i 2) (d + 1) false) false))
        (ordCells.all (fun i =>
          cond ((cellN nb i).beq 0)
            (miniGEN θn fuel (setN nb i 1) (d + 1) true) true)) := by
  simp only [miniGEN]
  rw [h]
  rfl

lemma miniGEN_terminal_iff {θn nb d : Nat} {p : Bool} {r : Res} (fuel : Nat)
    (hcw : checkWinner (absB nb) = some r) :
    (miniGEN θn fuel nb d p = true ↔ (θn : Int) - 100 ≤ terminalScore r d) := by
  have hbr := (checkWinnerN_bridge nb).symm
  rw [hcw] at hbr
  cases r with
  | draw =>
    rw [miniGEN_draw (decodeRes_eq_draw.mp hbr)]
    simp only [Nat.ble_eq, terminalScore]
    omega
  | win m =>
    cases m with
    | X =>
      rw [miniGEN_winX (decodeRes_eq_winX.mp hbr)]
      simp only [Nat.ble_eq, terminalScore]
      omega
    | O =>
      rw [miniGEN_winO (decodeRes_eq_winO.mp hbr)]
      simp only [Nat.ble_eq, terminalScore]
      omega

lemma absB_setN_fin {nb : Nat} {j : Fin 9} (h : cellN nb j.1 = 0) {v : Nat}
    (hv : v = 1 ∨ v = 2) :
    absB (setN nb j.1 v) = setCell (absB nb) j (decodeCell v) := by
  rw [absB_setN j.isLt h hv]

/-- The fast decision procedure `miniGEN θn` decides the lower bound
`θn - 100 ≤ minimax` on the abstracted board, given enough fuel. -/
lemma miniGEN_iff {θn : Nat} (hθu : θn ≤ 110) :
    ∀ (fuel nb d : Nat) (p : Bool),
      (emptyCellsOf (absB nb)).length ≤ fuel →
      (miniGEN θn fuel nb d p = true ↔ (θn : Int) - 100 ≤ minimax (absB nb) d p fuel) := by
  intro fuel
  induction fuel with
  | zero =>
    intro nb d p hf
    cases hcw : checkWinner (absB nb) with
    | none =>
      exfalso
      have := one_le_length_emptyCellsOf (nonterminal_has_empty hcw).choose_spec
      omega
    | some r =>
      rw [minimax_terminal hcw d p 0]
      exact miniGEN_terminal_iff 0 hcw
  | succ n ih =>
    intro nb d p hf
    cases hcw : checkWinner (absB nb) with
    | some r =>
      rw [minimax_terminal hcw d p (n + 1)]
      exact miniGEN_terminal_iff (n + 1) hcw
    | none =>
      have h0 : checkWinnerN nb = 0 := by
        have hbr := (checkWinnerN_bridge nb).symm
        rw [hcw] at hbr
        exact decodeRes_eq_none.mp hbr
      rw [miniGEN_none_succ h0, minimax_succ_none hcw]
      cases p with
      | true =>
        rw [Bool.cond_true, if_pos rfl, le_foldl_max, List.any_eq_true]
        constructor
        · rintro ⟨i, hi, hfi⟩
          cases h0i : (cellN nb i).beq 0 with
          | false =>
            rw [h0i, Bool.cond_false] at hfi
            exact absurd hfi Bool.false_ne_true
          | true =>
            have hci : cellN nb i = 0 := Nat.eq_of_beq_eq_true h0i
            rw [h0i, Bool.cond_true] at hfi
            have hi9 : i < 9 := mem_ordCells.mp hi
            have hbi : absB nb ⟨i, hi9⟩ = none := (@absB_eq_none nb ⟨i, hi9⟩).mpr hci
            have hlen : (emptyCellsOf (absB (setN nb i 2))).length ≤ n := by
              rw [absB_setN hi9 hci (Or.inr rfl),
                show decodeCell 2 = some Mark.O from rfl]
              have := length_emptyCellsOf_set hbi Mark.O
              omega
            have hv := (ih (setN nb i 2) (d + 1) false hlen).mp hfi
            rw [absB_setN hi9 hci (Or.inr rfl),
              show decodeCell 2 = some Mark.O from rfl] at hv
            exact Or.inr ⟨⟨i, hi9⟩, mem_emptyCellsOf.mpr hbi, hv⟩
        · rintro (habs | ⟨j, hj, hv⟩)
          · exfalso
            omega
          · refine ⟨j.1, mem_ordCells.mpr j.isLt, ?_⟩
            have hcj : cellN nb j.1 = 0 := absB_eq_none.mp (mem_emptyCellsOf.mp hj)
            have hbeq : (cellN nb j.1).beq 0 = true := by rw [hcj]; rfl
            rw [hbeq, Bool.cond_true]
            have hlen : (emptyCellsOf (absB (setN nb j.1 2))).length ≤ n := by
              rw [absB_setN_fin hcj (Or.inr rfl),
                show decodeCell 2 = some Mark.O from rfl]
              have := length_emptyCellsOf_set (mem_emptyCellsOf.mp hj) Mark.O
              omega
            rw [ih (setN nb j.1 2) (d + 1) false hlen]
            rw [absB_setN_fin hcj (Or.inr rfl),
              show decodeCell 2 = some Mark.O from rfl]
            exact hv
      | false =>
        rw [Bool.cond_false, if_neg Bool.false_ne_true, le_foldl_min, List.all_eq_true]
        constructor
        · intro hall
          refine ⟨by omega, fun j hj => ?_⟩
          have hcj : cellN nb j.1 = 0 := absB_eq_none.mp (mem_emptyCellsOf.mp hj)
          have hbeq : (cellN nb j.1).beq 0 = true := by rw [hcj]; rfl
          have hfi := hall j.1 (mem_ordCells.mpr j.isLt)
          rw [hbeq, Bool.cond_true] at hfi
          have hlen : (emptyCellsOf (absB (setN nb j.1 1))).length ≤ n := by
            rw [absB_setN_fin hcj (Or.inl rfl),
              show decodeCell 1 = some Mark.X from rfl]
            have := length_emptyCellsOf_set (mem_emptyCellsOf.mp hj) Mark.X
            omega
          have hv := (ih (setN nb j.1 1) (d + 1) true hlen).mp hfi
          rw [absB_setN_fin hcj (Or.inl rfl),
            show decodeCell 1 = some Mark.X from rfl] at hv
          exact hv
        · rintro ⟨-, hall⟩ i hi
          cases h0i : (cellN nb i).beq 0 with
          | false =>
            rw [Bool.cond_false]
          | true =>
            have hci : cellN nb i = 0 := Nat.eq_of_beq_eq_true h0i
            have hi9 : i < 9 := mem_ordCells.mp hi
            rw [Bool.cond_true]
            have hbi : absB nb ⟨i, hi9⟩ = none := (@absB_eq_none nb ⟨i, hi9⟩).mpr hci
            have hv := hall ⟨i, hi9⟩ (mem_emptyCellsOf.mpr hbi)
            have hlen : (emptyCellsOf (absB (setN nb i 1))).length ≤ n := by
              rw [absB_setN hi9 hci (Or.inl rfl),
                show decodeCell 1 = some Mark.X from rfl]
              have := length_emptyCellsOf_set hbi Mark.X
              omega
            rw [ih (setN nb i 1) (d + 1) true hlen]
            rw [absB_setN hi9 hci (Or.inl rfl),
              show decodeCell 1 = some Mark.X from rfl]
            exact hv

lemma checkWinner_draw_full {b : Board} (h : checkWinner b = some Res.draw) :
    ∀ i : Fin 9, b i ≠ none := by
  rw [checkWinner_eq_spec] at h
  unfold checkWinnerSpec at h
  cases hf : linesList.find? (fun l =>
      (b l.1).isSome && decide (b l.1 = b l.2.1) && decide (b l.1 = b l.2.2)) with
  | some l =>
    rw [hf] at h
    dsimp only at h
    cases hbl : b l.1 with
    | none => rw [hbl] at h; exact absurd h (by simp)
    | some m => rw [hbl] at h; exact absurd h (by simp)
  | none =>
    rw [hf] at h
    by_cases hfull : ∀ i : Fin 9, b i ≠ none
    · exact hfull
    · rw [if_neg hfull] at h
      exact absurd h (by simp)

lemma completesLine_set_other {b : Board} {c j : Fin 9} {mk : Mark}
    (hbc : b c = none) (h : completesLine b j Mark.X) :
    completesLine (setCell b c (some mk)) j Mark.X := by
  obtain ⟨l, hl, h1, h2, h3⟩ := h
  have key : ∀ x : Fin 9, setCell b j (some Mark.X) x = some Mark.X →
      setCell (setCell b c (some mk)) j (some Mark.X) x = some Mark.X := by
    intro x hx
    by_cases hxj : x = j
    · rw [hxj, setCell_self]
    · rw [setCell_ne _ _ hxj] at hx
      rw [setCell_ne _ _ hxj]
      have hxc : x ≠ c := by
        intro he
        rw [he, hbc] at hx
        exact Option.noConfusion hx
      rw [setCell_ne _ _ hxc]
      exact hx
  exact ⟨l, hl, key l.1 h1, key l.2.1 h2, key l.2.2 h3⟩

lemma checkWinner_set_none {b : Board} {c : Fin 9} {mk : Mark}
    (hnt : checkWinner b = none) (hnoW : ¬ completesLine b c mk)
    (hne : ∃ j : Fin 9, setCell b c (some mk) j = none) :
    checkWinner (setCell b c (some mk)) = none := by
  cases hcw : checkWinner (setCell b c (some mk)) with
  | none => rfl
  | some r =>
    exfalso
    cases r with
    | win m' =>
      obtain ⟨hm', hcomp⟩ := (checkWinner_set_win_iff hnt c mk m').mp hcw
      exact hnoW hcomp
    | draw =>
      obtain ⟨j, hj⟩ := hne
      exact (checkWinner_draw_full hcw j) hj

lemma value_le_of_threat {B : Board} (hnt : checkWinner B = none) {j : Fin 9}
    (hj : B j = none) (hcomp : completesLine B j Mark.X) :
    minimax B 0 false 9 ≤ -9 := by
  rw [show (9 : Nat) = 8 + 1 from rfl, minimax_succ_none hnt]
  simp only [Bool.false_eq_true, if_false]
  rw [foldl_min_le]
  refine Or.inr ⟨j, mem_emptyCellsOf.mpr hj, ?_⟩
  have hX : checkWinner (setCell B j (some Mark.X)) = some (Res.win Mark.X) :=
    (checkWinner_set_win_iff hnt j Mark.X Mark.X).mpr ⟨rfl, hcomp⟩
  rw [minimax_terminal hX (0 + 1) true 8]
  norm_num [terminalScore]

lemma exists_good_root {b : Board} (hnt : checkWinner b = none)
    (hv : 0 ≤ minimax b 0 true 9) :
    ∃ c : Fin 9, b c = none ∧ 0 ≤ rootScore b c := by
  rw [show (9 : Nat) = 8 + 1 from rfl, minimax_succ_none hnt] at hv
  simp only [if_true] at hv
  rw [le_foldl_max] at hv
  rcases hv with h | ⟨c, hc, h⟩
  · exact absurd h (by norm_num)
  · have hce := mem_emptyCellsOf.mp hc
    have hlen := length_emptyCellsOf_set hce Mark.O
    have hle := length_emptyCellsOf_le b
    refine ⟨c, hce, ?_⟩
    unfold rootScore
    rw [minimax_fuel 9 8 (setCell b c (some Mark.O)) 0 false (by omega) (by omega)]
    exact (minimax_sign 8 (setCell b c (some Mark.O)) (0 + 1) 0 false (by omega) (by omega)
      (by omega)).mp h

lemma pickBest_eq_self (b : Board) : ∀ (L : List (Fin 9)) (m : Fin 9),
    (∀ c ∈ L, rootScore b c ≤ rootScore b m) → pickBest b m L = m := by
  intro L
  induction L with
  | nil => intro m _; rfl
  | cons c t ih =>
    intro m h
    rw [pickBest, if_neg (not_lt.mpr (h c (List.mem_cons_self c t)))]
    exact ih m (fun c' hc' => h c' (List.mem_cons_of_mem c hc'))

lemma hard_move_kind {rnd : Nat} {b : Board} {m : Fin 9}
    (hnt : checkWinner b = none)
    (hm : getAIMove rnd b Difficulty.hard = some m) :
    b m = none ∧
      (completesLine b m Mark.O ∨
       ((∀ c : Fin 9, b c = none → ¬ completesLine b c Mark.O) ∧ completesLine b m Mark.X) ∨
       ((∀ c : Fin 9, b c = none → ¬ completesLine b c Mark.O) ∧
        (∀ c : Fin 9, b c = none → rootScore b c ≤ rootScore b m))) := by
  cases hw : (emptyCellsOf b).find? (fun c =>
      decide (checkWinner (setCell b c (some Mark.O)) = some (Res.win Mark.O))) with
  | some c =>
    have hres : getAIMove rnd b Difficulty.hard = some c := by
      simp only [getAIMove]
      rw [hw]
      simp
    have hcm : c = m := Option.some_injective _ (hres.symm.trans hm)
    subst hcm
    have hpc := List.find?_some hw
    exact ⟨mem_emptyCellsOf.mp (List.mem_of_find?_eq_some hw),
      Or.inl ((checkWinner_set_win_iff hnt c Mark.O Mark.O).mp (of_decide_eq_true hpc)).2⟩
  | none =>
    have hnoO : ∀ c' : Fin 9, b c' = none → ¬ completesLine b c' Mark.O := by
      intro c' hc' hcomp
      exact (List.find?_eq_none.mp hw c' (mem_emptyCellsOf.mpr hc'))
        (by
          rw [decide_eq_true_eq]
          exact (checkWinner_set_win_iff hnt c' Mark.O Mark.O).mpr ⟨rfl, hcomp⟩)
    cases hbk : (emptyCellsOf b).find? (fun c =>
        decide (checkWinner (setCell b c (some Mark.X)) = some (Res.win Mark.X))) with
    | some c =>
      have hres : getAIMove rnd b Difficulty.hard = some c := by
        simp only [getAIMove]
        rw [hw, hbk]
        simp
      have hcm : c = m := Option.some_injective _ (hres.symm.trans hm)
      subst hcm
      have hpc := List.find?_some hbk
      exact ⟨mem_emptyCellsOf.mp (List.mem_of_find?_eq_some hbk),
        Or.inr (Or.inl ⟨hnoO,
          ((checkWinner_set_win_iff hnt c Mark.X Mark.X).mp (of_decide_eq_true hpc)).2⟩)⟩
    | none =>
      obtain ⟨c0, t, hct⟩ := List.exists_cons_of_ne_nil (nonterminal_empty hnt)
      have hres : getAIMove rnd b Difficulty.hard = some (pickBest b c0 t) := by
        have hswap : getAIMove rnd b Difficulty.hard
            = hardLoop b (emptyCellsOf b) (-1000) ((emptyCellsOf b).get? 0) := by
          simp only [getAIMove]
          rw [hw, hbk]
          simp
        rw [hswap, hct]
        rw [show ((c0 :: t).get? 0) = some c0 from rfl]
        rw [hardLoop]
        rw [show minimax (setCell b c0 (some Mark.O)) 0 false 9 = rootScore b c0 from rfl]
        rw [if_pos (by have := (rootScore_bounds b c0).1; omega)]
        exact hardLoop_pickBest b t c0
      have hcm : pickBest b c0 t = m := Option.some_injective _ (hres.symm.trans hm)
      have hmemc : m ∈ emptyCellsOf b := by
        rw [hct, ← hcm]
        exact pickBest_mem b t c0
      refine ⟨mem_emptyCellsOf.mp hmemc, Or.inr (Or.inr ⟨hnoO, ?_⟩)⟩
      intro c' hc'
      rw [← hcm]
      exact pickBest_le b t c0 c' (by rw [← hct]; exact mem_emptyCellsOf.mpr hc')

lemma absB_zero : absB 0 = emptyBoard := by
  funext i
  revert i
  decide

lemma genEmptyB : miniGEN 100 9 0 0 false = true := by decide -- HEAVYGEN

lemma emptyBoard_value : 0 ≤ minimax emptyBoard 0 false 9 := by
  have h := (miniGEN_iff (show (100 : Nat) ≤ 110 by norm_num) 9 0 0 false
    (length_emptyCellsOf_le _)).mp genEmptyB
  rw [absB_zero] at h
  omega

lemma reachHard_value {b : Board} {t : Bool} (h : ReachHard b t) :
    0 ≤ minimax b 0 t 9 := by
  induction h with
  | init => exact emptyBoard_value
  | xmove b' i hr hnt hbi ih =>
    rw [show (9 : Nat) = 8 + 1 from rfl, minimax_succ_none hnt] at ih
    simp only [Bool.false_eq_true, if_false] at ih
    rw [le_foldl_min] at ih
    obtain ⟨-, hall⟩ := ih
    have h1 := hall i (mem_emptyCellsOf.mpr hbi)
    have hlen := length_emptyCellsOf_set hbi Mark.X
    have hle := length_emptyCellsOf_le b'
    rw [minimax_fuel 9 8 (setCell b' i (some Mark.X)) 0 true (by omega) (by omega)]
    exact (minimax_sign 8 (setCell b' i (some Mark.X)) (0 + 1) 0 true (by omega) (by omega)
      (by omega)).mp h1
  | omove b' rnd m hr hnt hm ih =>
    obtain ⟨hbm, hk⟩ := hard_move_kind hnt hm
    show 0 ≤ rootScore b' m
    rcases hk with hwin | ⟨hnoO, hblock⟩ | ⟨hnoO, hmax⟩
    · have h10 := rootScore_of_win
        ((checkWinner_set_win_iff hnt m Mark.O Mark.O).mpr ⟨rfl, hwin⟩)
      omega
    · obtain ⟨c₀, hc₀e, hc₀v⟩ := exists_good_root hnt ih
      by_cases hcm : c₀ = m
      · rw [← hcm]
        exact hc₀v
      · exfalso
        have hchm : setCell b' c₀ (some Mark.O) m = none := by
          rw [setCell_ne _ _ (Ne.symm hcm)]
          exact hbm
        have hntc : checkWinner (setCell b' c₀ (some Mark.O)) = none :=
          checkWinner_set_none hnt (hnoO c₀ hc₀e) ⟨m, hchm⟩
        have hcompc : completesLine (setCell b' c₀ (some Mark.O)) m Mark.X :=
          completesLine_set_other hc₀e hblock
        have hthreat := value_le_of_threat hntc hchm hcompc
        unfold rootScore at hc₀v
        omega
    · obtain ⟨c₀, hc₀e, hc₀v⟩ := exists_good_root hnt ih
      have := hmax c₀ hc₀e
      omega

lemma rootScore_ge_of_gen {b : Board} {c : Fin 9} {nb : Nat}
    (habs : absB nb = setCell b c (some Mark.O))
    (hg : miniGEN 100 9 nb 0 false = true) : 0 ≤ rootScore b c := by
  have h := (miniGEN_iff (show (100 : Nat) ≤ 110 by norm_num) 9 nb 0 false
    (length_emptyCellsOf_le _)).mp hg
  rw [habs] at h
  unfold rootScore
  omega

lemma rootScore_le_of_gen {b : Board} {c : Fin 9} {nb : Nat}
    (habs : absB nb = setCell b c (some Mark.O))
    (hg : miniGEN 101 9 nb 0 false = false) : rootScore b c ≤ 0 := by
  have h := miniGEN_iff (show (101 : Nat) ≤ 110 by norm_num) 9 nb 0 false
    (length_emptyCellsOf_le (absB nb))
  rw [hg, habs] at h
  unfold rootScore
  by_contra hlt
  exact Bool.false_ne_true (h.mpr (by omega))

lemma absG0c0 : absB 83 = setCell (gameB 0) 0 (some Mark.O) := by
  funext i; revert i; decide

lemma absG0c1 : absB 87 = setCell (gameB 0) 1 (some Mark.O) := by
  funext i; revert i; decide

lemma absG0c2 : absB 99 = setCell (gameB 0) 2 (some Mark.O) := by
  funext i; revert i; decide

lemma absG0c3 : absB 135 = setCell (gameB 0) 3 (some Mark.O) := by
  funext i; revert i; decide

lemma absG0c5 : absB 567 = setCell (gameB 0) 5 (some Mark.O) := by
  funext i; revert i; decide

lemma absG0c6 : absB 1539 = setCell (gameB 0) 6 (some Mark.O) := by
  funext i; revert i; decide

lemma absG0c7 : absB 4455 = setCell (gameB 0) 7 (some Mark.O) := by
  funext i; revert i; decide

lemma absG0c8 : absB 13203 = setCell (gameB 0) 8 (some Mark.O) := by
  funext i; revert i; decide

lemma absG1c1 : absB 89 = setCell (gameB 1) 1 (some Mark.O) := by
  funext i; revert i; decide

lemma absG1c2 : absB 101 = setCell (gameB 1) 2 (some Mark.O) := by
  funext i; revert i; decide

lemma absG1c3 : absB 137 = setCell (gameB 1) 3 (some Mark.O) := by
  funext i; revert i; decide

lemma absG1c5 : absB 569 = setCell (gameB 1) 5 (some Mark.O) := by
  funext i; revert i; decide

lemma absG1c6 : absB 1541 = setCell (gameB 1) 6 (some Mark.O) := by
  funext i; revert i; decide

lemma absG1c7 : absB 4457 = setCell (gameB 1) 7 (some Mark.O) := by
  funext i; revert i; decide

lemma absG1c8 : absB 13205 = setCell (gameB 1) 8 (some Mark.O) := by
  funext i; revert i; decide

lemma genG0c0 : miniGEN 100 9 83 0 false = true := by decide -- HEAVYGEN

lemma genG0c1 : miniGEN 101 9 87 0 false = false := by decide -- HEAVYGEN

lemma genG0c2 : miniGEN 101 9 99 0 false = false := by decide -- HEAVYGEN

lemma genG0c3 : miniGEN 101 9 135 0 false = false := by decide -- HEAVYGEN

lemma genG0c5 : miniGEN 101 9 567 0 false = false := by decide -- HEAVYGEN

lemma genG0c6 : miniGEN 101 9 1539 0 false = false := by decide -- HEAVYGEN

lemma genG0c7 : miniGEN 101 9 4455 0 false = false := by decide -- HEAVYGEN

lemma genG0c8 : miniGEN 101 9 13203 0 false = false := by decide -- HEAVYGEN

lemma genG1c1 : miniGEN 100 9 89 0 false = true := by decide -- HEAVYGEN

lemma genG1c2 : miniGEN 101 9 101 0 false = false := by decide -- HEAVYGEN

lemma genG1c3 : miniGEN 101 9 137 0 false = false := by decide -- HEAVYGEN

lemma genG1c5 : miniGEN 101 9 569 0 false = false := by decide -- HEAVYGEN

lemma genG1c6 : miniGEN 101 9 1541 0 false = false := by decide -- HEAVYGEN

lemma genG1c7 : miniGEN 101 9 4457 0 false = false := by decide -- HEAVYGEN

lemma genG1c8 : miniGEN 101 9 13205 0 false = false := by decide -- HEAVYGEN

lemma selfMove0 : getAIMove 0 (gameB 0) Difficulty.hard = some 0 := by
  have hw : (emptyCellsOf (gameB 0)).find? (fun c =>
      decide (checkWinner (setCell (gameB 0) c (some Mark.O)) = some (Res.win Mark.O)))
      = none := by decide
  have hbk : (emptyCellsOf (gameB 0)).find? (fun c =>
      decide (checkWinner (setCell (gameB 0) c (some Mark.X)) = some (Res.win Mark.X)))
      = none := by decide
  have hswap : getAIMove 0 (gameB 0) Difficulty.hard
      = hardLoop (gameB 0) (emptyCellsOf (gameB 0)) (-1000)
          ((emptyCellsOf (gameB 0)).get? 0) := by
    simp only [getAIMove]
    rw [hw, hbk]
    simp
  have hE : emptyCellsOf (gameB 0) = [0, 1, 2, 3, 5, 6, 7, 8] := by decide
  have hr0 : 0 ≤ rootScore (gameB 0) 0 := rootScore_ge_of_gen absG0c0 genG0c0
  have hrest : ∀ c ∈ ([1, 2, 3, 5, 6, 7, 8] : List (Fin 9)),
      rootScore (gameB 0) c ≤ rootScore (gameB 0) 0 := by
    intro c hc
    fin_cases hc
    · exact le_trans (rootScore_le_of_gen absG0c1 genG0c1) hr0
    · exact le_trans (rootScore_le_of_gen absG0c2 genG0c2) hr0
    · exact le_trans (rootScore_le_of_gen absG0c3 genG0c3) hr0
    · exact le_trans (rootScore_le_of_gen absG0c5 genG0c5) hr0
    · exact le_trans (rootScore_le_of_gen absG0c6 genG0c6) hr0
    · exact le_trans (rootScore_le_of_gen absG0c7 genG0c7) hr0
    · exact le_trans (rootScore_le_of_gen absG0c8 genG0c8) hr0
  rw [hswap, hE]
  rw [show (([0, 1, 2, 3, 5, 6, 7, 8] : List (Fin 9)).get? 0) = some 0 from rfl]
  rw [hardLoop]
  rw [show minimax (setCell (gameB 0) 0 (some Mark.O)) 0 false 9
      = rootScore (gameB 0) 0 from rfl]
  rw [if_pos (by have := (rootScore_bounds (gameB 0) 0).1; omega)]
  rw [hardLoop_pickBest]
  rw [pickBest_eq_self (gameB 0) [1, 2, 3, 5, 6, 7, 8] 0 hrest]

lemma selfMove1 : getAIMove 0 (gameB 1) Difficulty.hard = some 1 := by
  have hw : (emptyCellsOf (gameB 1)).find? (fun c =>
      decide (checkWinner (setCell (gameB 1) c (some Mark.O)) = some (Res.win Mark.O)))
      = none := by decide
  have hbk : (emptyCellsOf (gameB 1)).find? (fun c =>
      decide (checkWinner (setCell (gameB 1) c (some Mark.X)) = some (Res.win Mark.X)))
      = none := by decide
  have hswap : getAIMove 0 (gameB 1) Difficulty.hard
      = hardLoop (gameB 1) (emptyCellsOf (gameB 1)) (-1000)
          ((emptyCellsOf (gameB 1)).get? 0) := by
    simp only [getAIMove]
    rw [hw, hbk]
    simp
  have hE : emptyCellsOf (gameB 1) = [1, 2, 3, 5, 6, 7, 8] := by decide
  have hr1 : 0 ≤ rootScore (gameB 1) 1 := rootScore_ge_of_gen absG1c1 genG1c1
  have hrest : ∀ c ∈ ([2, 3, 5, 6, 7, 8] : List (Fin 9)),
      rootScore (gameB 1) c ≤ rootScore (gameB 1) 1 := by
    intro c hc
    fin_cases hc
    · exact le_trans (rootScore_le_of_gen absG1c2 genG1c2) hr1
    · exact le_trans (rootScore_le_of_gen absG1c3 genG1c3) hr1
    · exact le_trans (rootScore_le_of_gen absG1c5 genG1c5) hr1
    · exact le_trans (rootScore_le_of_gen absG1c6 genG1c6) hr1
    · exact le_trans (rootScore_le_of_gen absG1c7 genG1c7) hr1
    · exact le_trans (rootScore_le_of_gen absG1c8 genG1c8) hr1
  rw [hswap, hE]
  rw [show (([1, 2, 3, 5, 6, 7, 8] : List (Fin 9)).get? 0) = some 1 from rfl]
  rw [hardLoop]
  rw [show minimax (setCell (gameB 1) 1 (some Mark.O)) 0 false 9
      = rootScore (gameB 1) 1 from rfl]
  rw [if_pos (by have := (rootScore_bounds (gameB 1) 1).1; omega)]
  rw [hardLoop_pickBest]
  rw [pickBest_eq_self (gameB 1) [2, 3, 5, 6, 7, 8] 1 hrest]

lemma selfMove2 : getAIMove 0 (gameB 2) Difficulty.hard = some 7 := by decide

lemma selfMove3 : getAIMove 0 (gameB 3) Difficulty.hard = some 6 := by decide

lemma selfMove4 : getAIMove 0 (gameB 4) Difficulty.hard = some 2 := by decide

lemma selfMove5 : getAIMove 0 (gameB 5) Difficulty.hard = some 3 := by decide

lemma selfMove6 : getAIMove 0 (gameB 6) Difficulty.hard = some 5 := by decide

lemma selfMove7 : getAIMove 0 (gameB 7) Difficulty.hard = some 8 := by decide

lemma stepB0 : setCell (gameB 0) 0 (some Mark.O) = gameB 1 := by
  funext i; revert i; decide

lemma stepB1 : setCell (gameB 1) 1 (some Mark.X) = gameB 2 := by
  funext i; revert i; decide

lemma stepB2 : setCell (gameB 2) 7 (some Mark.O) = gameB 3 := by
  funext i; revert i; decide

lemma stepB3 : setCell (gameB 3) 6 (some Mark.X) = gameB 4 := by
  funext i; revert i; decide

lemma stepB4 : setCell (gameB 4) 2 (some Mark.O) = gameB 5 := by
  funext i; revert i; decide

lemma stepB5 : setCell (gameB 5) 3 (some Mark.X) = gameB 6 := by
  funext i; revert i; decide

lemma stepB6 : setCell (gameB 6) 5 (some Mark.O) = gameB 7 := by
  funext i; revert i; decide

lemma stepB7 : setCell (gameB 7) 8 (some Mark.X) = gameB 8 := by
  funext i; revert i; decide

lemma hardSelfPlay_term {fuel : Nat} {b : Board} {mk : Mark} {r : Res}
    (h : checkWinner b = some r) : hardSelfPlay (fuel + 1) b mk = b := by
  simp only [hardSelfPlay, h]

lemma hardSelfPlay_step {fuel : Nat} {b : Board} {mk : Mark} {m : Fin 9}
    (hnt : checkWinner b = none) (hm : getAIMove 0 b Difficulty.hard = some m) :
    hardSelfPlay (fuel + 1) b mk = hardSelfPlay fuel (setCell b m (some mk)) (otherMark mk) := by
  simp only [hardSelfPlay, hnt, hm]

lemma selfplay_eq : hardSelfPlay 9 (gameB 0) Mark.O = gameB 8 := by
  have s8 : hardSelfPlay 1 (gameB 8) Mark.O = gameB 8 :=
    hardSelfPlay_term (show checkWinner (gameB 8) = some Res.draw from by decide)
  have s7 : hardSelfPlay 2 (gameB 7) Mark.X = gameB 8 := by
    rw [show (2 : Nat) = 1 + 1 from rfl,
      hardSelfPlay_step (show checkWinner (gameB 7) = none from by decide) selfMove7, stepB7,
      show otherMark Mark.X = Mark.O from rfl]
    exact s8
  have s6 : hardSelfPlay 3 (gameB 6) Mark.O = gameB 8 := by
    rw [show (3 : Nat) = 2 + 1 from rfl,
      hardSelfPlay_step (show checkWinner (gameB 6) = none from by decide) selfMove6, stepB6,
      show otherMark Mark.O = Mark.X from rfl]
    exact s7
  have s5 : hardSelfPlay 4 (gameB 5) Mark.X = gameB 8 := by
    rw [show (4 : Nat) = 3 + 1 from rfl,
      hardSelfPlay_step (show checkWinner (gameB 5) = none from by decide) selfMove5, stepB5,
      show otherMark Mark.X = Mark.O from rfl]
    exact s6
  have s4 : hardSelfPlay 5 (gameB 4) Mark.O = gameB 8 := by
    rw [show (5 : Nat) = 4 + 1 from rfl,
      hardSelfPlay_step (show checkWinner (gameB 4) = none from by decide) selfMove4, stepB4,
      show otherMark Mark.O = Mark.X from rfl]
    exact s5
  have s3 : hardSelfPlay 6 (gameB 3) Mark.X = gameB 8 := by
    rw [show (6 : Nat) = 5 + 1 from rfl,
      hardSelfPlay_step (show checkWinner (gameB 3) = none from by decide) selfMove3, stepB3,
      show otherMark Mark.X = Mark.O from rfl]
    exact s4
  have s2 : hardSelfPlay 7 (gameB 2) Mark.O = gameB 8 := by
    rw [show (7 : Nat) = 6 + 1 from rfl,
      hardSelfPlay_step (show checkWinner (gameB 2) = none from by decide) selfMove2, stepB2,
      show otherMark Mark.O = Mark.X from rfl]
    exact s3
  have s1 : hardSelfPlay 8 (gameB 1) Mark.X = gameB 8 := by
    rw [show (8 : Nat) = 7 + 1 from rfl,
      hardSelfPlay_step (show checkWinner (gameB 1) = none from by decide) selfMove1, stepB1,
      show otherMark Mark.X = Mark.O from rfl]
    exact s2
  rw [show (9 : Nat) = 8 + 1 from rfl,
    hardSelfPlay_step (show checkWinner (gameB 0) = none from by decide) selfMove0, stepB0,
    show otherMark Mark.O = Mark.X from rfl]
  exact s1

/-- C3 (amended): when the `'O'` side has played the hard selector's move
throughout the game (any `Math.random()` outcomes, any legal `'X'` play), no
reachable position is an `'X'` win — the hard AI never loses a game it plays
from the start; and the spec's concrete game (human opens at the center, both
sides then playing the hard selector) ends in a draw. -/
theorem C3_hard_never_loses :
    (∀ (b : Board) (t : Bool), ReachHard b t → checkWinner b ≠ some (Res.win Mark.X)) ∧
    checkWinner (hardSelfPlay 9 (gameB 0) Mark.O) = some Res.draw := by
  constructor
  · intro b t hr hX
    have hv := reachHard_value hr
    rw [minimax_terminal hX 0 t 9] at hv
    norm_num [terminalScore] at hv
  · rw [selfplay_eq]
    decide

/-- Witness for C3's amended claim at a concrete input: the position after the
human opening move at the center is reachable with a hard `'O'` and is not an
`'X'` win. -/
theorem C3_witness :
    checkWinner (setCell emptyBoard 4 (some Mark.X)) ≠ some (Res.win Mark.X) :=
  C3_hard_never_loses.1 (setCell emptyBoard 4 (some Mark.X)) true
    (ReachHard.xmove emptyBoard 4 ReachHard.init (by decide) (by decide))

/-- C3 counterexample: the fork position `['X','O',null,'X','X',null,'O',null,null]`
is a reachable legal position with the AI side `'O'` to move (reached by
X0, O1, X3, O6, X4), yet after the hard selector's reply — the block at 5 —
`'X'` completes the main diagonal at 8 and wins: "never a win for `'X'` from
any reachable legal position" fails as stated. -/
theorem C3_counterexample :
    ReachAny forkP Mark.O ∧ checkWinner forkP = none ∧
    getAIMove 0 forkP Difficulty.hard = some 5 ∧
    setCell forkP 5 (some Mark.O) 8 = none ∧
    checkWinner (setCell (setCell forkP 5 (some Mark.O)) 8 (some Mark.X)) =
      some (Res.win Mark.X) := by
  refine ⟨?_, by decide, by decide, by decide, by decide⟩
  have r1 := ReachAny.step emptyBoard 0 Mark.X ReachAny.init (by decide) (by decide)
  have r2 := ReachAny.step _ 1 Mark.O r1 (by decide) (by decide)
  have r3 := ReachAny.step _ 3 Mark.X r2 (by decide) (by decide)
  have r4 := ReachAny.step _ 6 Mark.O r3 (by decide) (by decide)
  have r5 := ReachAny.step _ 4 Mark.X r4 (by decide) (by decide)
  have hb : setCell (setCell (setCell (setCell (setCell emptyBoard 0 (some Mark.X)) 1
      (some Mark.O)) 3 (some Mark.X)) 6 (some Mark.O)) 4 (some Mark.X) = forkP := by
    funext i
    revert i
    decide
  rw [← hb]
  exact r5
